import Mathlib

/-!
Verification development for the `prd` CLI (src/index.ts).

The repository is a thin TypeScript CLI: it classifies a GitHub URL as a
pull-request or compare reference, fetches the diff from GitHub, asks a
text-generation model for a title/description, and (on the PR path) writes
the description back.  This file gives a shallow embedding of that code:

* `parseGitHubUrl` embeds the function of the same name (src/index.ts:42-105).
  The two JavaScript regexes are modelled by deterministic matchers
  (`matchPRAt`, `matchCompareAt`) tried at every start position
  (`scanMatch`), which is exactly the backtracking behaviour of
  `String.prototype.match` for these patterns: every quantified class
  (`[^\/]+`, `[^?#]+`, `\d+`) is immediately followed either by a literal
  that the class excludes or by the end of the pattern, so greedy matching
  at a fixed start position is deterministic and the engine only
  backtracks by sliding the start position to the right.
* `splitDots` embeds `comparison.split("...")` (leftmost, non-overlapping).
* `extractBraced` embeds `text.match(/\x7b[\s\S]*\x7d/)`: the leftmost match
  runs from the first `\x7b` to the last `\x7d` of the string (greedy), and a
  match exists iff some `\x7d` occurs after the first `\x7b`.
* `jsonParse` models the `JSON.parse` builtin (fuelled recursive descent;
  `\u` escapes are decoded without surrogate-pair combination, which no
  input in this development exercises).
* `parseReply` embeds the reply handling of `generateTitleAndDescription`
  (src/index.ts:202-213) and `buildPrompt` its prompt assembly (143-189).
* `main` embeds the driver (src/index.ts:229-367) as a pure function from
  the argument/environment snapshot and an oracle for the remote calls to
  an exit code plus an ordered trace of observable events.
-/

namespace Prd

/-! ## Data model (TypeScript interfaces, src/index.ts:5-40) -/

structure PRDetails where
  owner : String
  repo : String
  pull_number : Nat
deriving DecidableEq, Repr

structure CompareDetails where
  owner : String
  repo : String
  base : String
  head : String
deriving DecidableEq, Repr

inductive URLDetails where
  | pr (details : PRDetails)
  | compare (details : CompareDetails)
deriving DecidableEq, Repr

structure FileChange where
  filename : String
  status : String
  additions : Nat
  deletions : Nat
  changes : Nat
  patch : Option String
deriving DecidableEq, Repr

structure PRData where
  title : String
  body : Option String
  html_url : String
deriving DecidableEq, Repr

/-- Errors thrown by `parseGitHubUrl`; each constructor is one `throw new
Error(...)` site, `errorMessage` below carries the exact message text. -/
inductive PrdError where
  | urlRequired
  | extractPrFailed
  | invalidPullNumber
  | extractCompareFailed
  | invalidComparisonFormat
  | invalidUrl
deriving DecidableEq, Repr

def errorMessage : PrdError → String
  | .urlRequired => "GitHub URL is required and must be a string"
  | .extractPrFailed => "Failed to extract owner, repo, or pull number from URL"
  | .invalidPullNumber => "Invalid pull number in URL"
  | .extractCompareFailed => "Failed to extract owner, repo, or comparison from URL"
  | .invalidComparisonFormat => "Invalid comparison format in URL"
  | .invalidUrl => "Invalid GitHub URL. Expected format: https://github.com/owner/repo/pull/123 or https://github.com/owner/repo/compare/base...head"

/-! ## Regex machinery

`stripLit pat s` consumes the literal `pat` from the front of `s`
(`none` on mismatch).  `takeRun p s` splits `s` at the first character
refuting `p` (the maximal greedy run of a character class).  `scanMatch f s`
tries `f` at every start position, leftmost first, exactly as the JS regex
engine slides the match start. -/

def stripLit : List Char → List Char → Option (List Char)
  | [], s => some s
  | _ :: _, [] => none
  | c :: cs, d :: ds => if c == d then stripLit cs ds else none

def takeRun (p : Char → Bool) : List Char → List Char × List Char
  | [] => ([], [])
  | c :: cs =>
    if p c then
      let r := takeRun p cs
      (c :: r.1, r.2)
    else ([], c :: cs)

/-- A `+`-quantified character class: the greedy run, failing if empty. -/
def group1 (p : Char → Bool) (s : List Char) : Option (List Char × List Char) :=
  let r := takeRun p s
  if r.1 = [] then none else some r

def scanMatch (f : List Char → Option α) : List Char → Option α
  | [] => f []
  | c :: cs =>
    match f (c :: cs) with
    | some v => some v
    | none => scanMatch f cs

def notSlash (c : Char) : Bool := c != '/'

def notQueryHash (c : Char) : Bool := c != '?' && c != '#'

/-- One attempt of `/github\.com\/([^\/]+)\/([^\/]+)\/pull\/(\d+)/` at a
fixed start position (deterministic: see the module docstring). -/
def matchPRAt (s : List Char) : Option (List Char × List Char × List Char) :=
  (stripLit "github.com/".data s).bind fun s1 =>
  (group1 notSlash s1).bind fun p1 =>
  (stripLit ['/'] p1.2).bind fun s2 =>
  (group1 notSlash s2).bind fun p2 =>
  (stripLit "/pull/".data p2.2).bind fun s3 =>
  (group1 Char.isDigit s3).map fun p3 =>
  (p1.1, p2.1, p3.1)

/-- One attempt of `/github\.com\/([^\/]+)\/([^\/]+)\/compare\/([^?#]+)/`
at a fixed start position. -/
def matchCompareAt (s : List Char) : Option (List Char × List Char × List Char) :=
  (stripLit "github.com/".data s).bind fun s1 =>
  (group1 notSlash s1).bind fun p1 =>
  (stripLit ['/'] p1.2).bind fun s2 =>
  (group1 notSlash s2).bind fun p2 =>
  (stripLit "/compare/".data p2.2).bind fun s3 =>
  (group1 notQueryHash s3).map fun p3 =>
  (p1.1, p2.1, p3.1)

/-- `comparison.split("...")`: split on leftmost non-overlapping
occurrences of the three-character delimiter. -/
def splitDots : List Char → List (List Char)
  | [] => [[]]
  | '.' :: '.' :: '.' :: rest => [] :: splitDots rest
  | c :: rest =>
    match splitDots rest with
    | chunk :: chunks => (c :: chunk) :: chunks
    | [] => [[c]]

/-- No occurrence of the `...` delimiter: `splitDots` leaves such a chunk
whole. -/
def noTriple : List Char → Bool
  | '.' :: '.' :: '.' :: _ => false
  | _ :: rest => noTriple rest
  | [] => true

/-- A chunk that `splitDots` cuts cleanly on its right: it contains no
`...` and does not end in a dot (otherwise the leftmost delimiter
occurrence would start inside the chunk). -/
def okLeft : List Char → Bool
  | [] => true
  | ['.'] => false
  | '.' :: '.' :: '.' :: _ => false
  | _ :: rest => okLeft rest

/-- A well-formed owner/repo path segment: non-empty, slash-free, and not
ending in `github.com` (which would open a second anchor for the regex
scan; real GitHub owner/repo names satisfy this). -/
abbrev cleanSeg (s : String) : Prop :=
  s.data ≠ [] ∧ (∀ c ∈ s.data, c ≠ '/') ∧ ¬ ("github.com".data <:+ s.data)

/-- A branch name as it appears in a compare spec: free of `/`, `?`, `#`. -/
abbrev cleanBranch (s : String) : Prop :=
  ∀ c ∈ s.data, c ≠ '/' ∧ c ≠ '?' ∧ c ≠ '#'

/-- The compare-branch outcome of `parseGitHubUrl` as a function of the
split parts (mirrors the `parts.length` dispatch of src/index.ts:85-94). -/
def splitRes (owner repo : List Char) (parts : List (List Char)) :
    Except PrdError URLDetails :=
  match parts with
  | [b, h] => .ok (.compare ⟨String.mk owner, String.mk repo, String.mk b, String.mk h⟩)
  | [h] => .ok (.compare ⟨String.mk owner, String.mk repo, "main", String.mk h⟩)
  | _ => .error .invalidComparisonFormat

/-- The exact mathematical integer value of a string of decimal digits
(the `mathInt` of the ECMAScript `parseInt` algorithm, before the value is
converted to a double). -/
def digitsToNat (s : List Char) : Nat :=
  s.foldl (fun n c => n * 10 + (c.toNat - '0'.toNat)) 0

/-- Round a natural number to the nearest IEEE-754 double (ties to even).
Integers below `2 ^ 53` are exactly representable and returned unchanged;
above, the 53-bit significand drops `log2 n - 52` low bits and rounds. -/
def roundToDouble (n : Nat) : Nat :=
  if n < 2 ^ 53 then n
  else
    let k := n.log2 - 52
    let q := n / 2 ^ k
    let r := n % 2 ^ k
    if 2 ^ k < 2 * r ∨ (2 * r = 2 ^ k ∧ q % 2 = 1) then (q + 1) * 2 ^ k else q * 2 ^ k

/-- `parseInt(s, 10)` on an all-digit string: the exact integer value
rounded to the nearest double.  Digit strings whose value rounds to
`2 ^ 1024` or beyond produce `Infinity` in JavaScript, which this
Nat-valued model cannot carry; the branching of `parseGitHubUrl` is
unaffected (`Infinity <= 0` is false, as is `0 < n` false only at 0), and
the one theorem that inspects the numeric payload excludes that range by
hypothesis. -/
def parseIntDigits (s : List Char) : Nat :=
  roundToDouble (digitsToNat s)

/-! ## `parseGitHubUrl` (src/index.ts:42-105) -/

def parseGitHubUrl (url : String) : Except PrdError URLDetails :=
  if url = "" then .error .urlRequired
  else
    match scanMatch matchPRAt url.data with
    | some (owner, repo, pullNumberStr) =>
      if owner = [] ∨ repo = [] ∨ pullNumberStr = [] then .error .extractPrFailed
      else
        let pull_number := parseIntDigits pullNumberStr
        if pull_number ≤ 0 then .error .invalidPullNumber
        else .ok (.pr ⟨String.mk owner, String.mk repo, pull_number⟩)
    | none =>
      match scanMatch matchCompareAt url.data with
      | some (owner, repo, comparison) =>
        if owner = [] ∨ repo = [] ∨ comparison = [] then .error .extractCompareFailed
        else
          match splitDots comparison with
          | [b, h] => .ok (.compare ⟨String.mk owner, String.mk repo, String.mk b, String.mk h⟩)
          | [h] => .ok (.compare ⟨String.mk owner, String.mk repo, "main", String.mk h⟩)
          | _ => .error .invalidComparisonFormat
      | none => .error .invalidUrl

/-! ## Model-reply handling (src/index.ts:133-214)

`extractBraced` models `content.text.match(/\x7b[\s\S]*\x7d/)`: the regex is
greedy, so the (unique) match runs from the first `\x7b` of the text to the
last `\x7d`, and a match exists iff some `\x7d` occurs after the first `\x7b`. -/

/-- The suffix of `s` starting at the first occurrence of `c` (if any). -/
def dropBefore (c : Char) : List Char → Option (List Char)
  | [] => none
  | d :: ds => if d == c then some (d :: ds) else dropBefore c ds

/-- The prefix of `s` ending at the last occurrence of `c` (if any). -/
def takeThruLast (c : Char) (s : List Char) : Option (List Char) :=
  match dropBefore c s.reverse with
  | some r => some r.reverse
  | none => none

def extractBraced (s : List Char) : Option (List Char) :=
  (dropBefore '\x7b' s).bind (takeThruLast '\x7d')

/-- JSON values, as produced by `JSON.parse`.  Numbers keep their raw token
(no claim in this development inspects a parsed number, and modelling
IEEE-754 would add nothing). -/
inductive Json where
  | null
  | bool (b : Bool)
  | num (raw : List Char)
  | str (s : List Char)
  | arr (elems : List Json)
  | obj (fields : List (List Char × Json))

def isJsonWs (c : Char) : Bool :=
  c == ' ' || c == '\t' || c == '\n' || c == '\r'

def skipWs (s : List Char) : List Char := s.dropWhile isJsonWs

def hexVal? (c : Char) : Option Nat :=
  if '0' ≤ c ∧ c ≤ '9' then some (c.toNat - '0'.toNat)
  else if 'a' ≤ c ∧ c ≤ 'f' then some (c.toNat - 'a'.toNat + 10)
  else if 'A' ≤ c ∧ c ≤ 'F' then some (c.toNat - 'A'.toNat + 10)
  else none

/-- Decode a JSON escape character (the character after the backslash,
excluding `u`). -/
def unescape? (e : Char) : Option Char :=
  if e = '"' then some '"'
  else if e = '\\' then some '\\'
  else if e = '/' then some '/'
  else if e = 'b' then some '\x08'
  else if e = 'f' then some '\x0c'
  else if e = 'n' then some '\n'
  else if e = 'r' then some '\r'
  else if e = 't' then some '\t'
  else none

/-- Body of a JSON string after the opening quote; returns the decoded
characters and the rest of the input after the closing quote.  `\u` escapes
are decoded codepoint-wise (surrogate pairs are not recombined; nothing in
this development exercises them). -/
def parseJsonStr : List Char → Option (List Char × List Char)
  | [] => none
  | '"' :: r => some ([], r)
  | '\\' :: 'u' :: h1 :: h2 :: h3 :: h4 :: r2 =>
    match hexVal? h1, hexVal? h2, hexVal? h3, hexVal? h4 with
    | some a, some b, some c, some d =>
      (parseJsonStr r2).map fun p =>
        (Char.ofNat (((a * 16 + b) * 16 + c) * 16 + d) :: p.1, p.2)
    | _, _, _, _ => none
  | '\\' :: e :: r =>
    match unescape? e with
    | some c => (parseJsonStr r).map fun p => (c :: p.1, p.2)
    | none => none
  | c :: r => if c.toNat < 0x20 then none else (parseJsonStr r).map fun p => (c :: p.1, p.2)

/-- JSON number token: `-?(0|[1-9][0-9]*)(\.[0-9]+)?([eE][+-]?[0-9]+)?`.
Returns the raw token and the rest. -/
def parseJsonNum (s : List Char) : Option (List Char × List Char) :=
  let (neg, s1) : List Char × List Char :=
    match s with
    | '-' :: r => (['-'], r)
    | _ => ([], s)
  match s1 with
  | '0' :: r =>
    let (frac, r2) := parseFracExp r
    some (neg ++ '0' :: frac, r2)
  | c :: r =>
    if c.isDigit then
      let run := takeRun Char.isDigit r
      let (frac, r2) := parseFracExp run.2
      some (neg ++ c :: run.1 ++ frac, r2)
    else none
  | [] => none
where
  parseFracExp (s : List Char) : List Char × List Char :=
    let (frac, s1) : List Char × List Char :=
      match s with
      | '.' :: r =>
        let run := takeRun Char.isDigit r
        if run.1 = [] then ([], s) else ('.' :: run.1, run.2)
      | _ => ([], s)
    let (ex, s2) : List Char × List Char :=
      match s1 with
      | 'e' :: r => parseExpTail 'e' r s1
      | 'E' :: r => parseExpTail 'E' r s1
      | _ => ([], s1)
    (frac ++ ex, s2)
  parseExpTail (e : Char) (r orig : List Char) : List Char × List Char :=
    let (sgn, r1) : List Char × List Char :=
      match r with
      | '+' :: r2 => (['+'], r2)
      | '-' :: r2 => (['-'], r2)
      | _ => ([], r)
    let run := takeRun Char.isDigit r1
    if run.1 = [] then ([], orig) else (e :: sgn ++ run.1, run.2)

mutual

def parseJsonVal : Nat → List Char → Option (Json × List Char)
  | 0, _ => none
  | fuel + 1, s =>
    match skipWs s with
    | 'n' :: 'u' :: 'l' :: 'l' :: r => some (.null, r)
    | 't' :: 'r' :: 'u' :: 'e' :: r => some (.bool true, r)
    | 'f' :: 'a' :: 'l' :: 's' :: 'e' :: r => some (.bool false, r)
    | '"' :: r => (parseJsonStr r).map fun p => (.str p.1, p.2)
    | '[' :: r =>
      match skipWs r with
      | ']' :: r2 => some (.arr [], r2)
      | r2 => parseJsonArrTail fuel r2 []
    | '\x7b' :: r =>
      match skipWs r with
      | '\x7d' :: r2 => some (.obj [], r2)
      | r2 => parseJsonObjTail fuel r2 []
    | s2 => (parseJsonNum s2).map fun p => (.num p.1, p.2)

def parseJsonArrTail : Nat → List Char → List Json → Option (Json × List Char)
  | 0, _, _ => none
  | fuel + 1, s, acc =>
    match parseJsonVal fuel s with
    | none => none
    | some (v, r) =>
      match skipWs r with
      | ',' :: r2 => parseJsonArrTail fuel r2 (v :: acc)
      | ']' :: r2 => some (.arr (v :: acc).reverse, r2)
      | _ => none

def parseJsonObjTail : Nat → List Char → List (List Char × Json) → Option (Json × List Char)
  | 0, _, _ => none
  | fuel + 1, s, acc =>
    match skipWs s with
    | '"' :: r =>
      match parseJsonStr r with
      | none => none
      | some (key, r1) =>
        match skipWs r1 with
        | ':' :: r2 =>
          match parseJsonVal fuel r2 with
          | none => none
          | some (v, r3) =>
            match skipWs r3 with
            | ',' :: r4 => parseJsonObjTail fuel r4 ((key, v) :: acc)
            | '\x7d' :: r4 => some (.obj ((key, v) :: acc).reverse, r4)
            | _ => none
        | _ => none
    | _ => none

end

/-- `JSON.parse`: one value, surrounding whitespace allowed, nothing after. -/
def jsonParse (s : List Char) : Option Json :=
  match parseJsonVal (s.length + 1) s with
  | some (v, r) => if skipWs r = [] then some v else none
  | none => none

/-- Property access on a parsed JSON value (JS objects built by `JSON.parse`
keep the last of duplicate keys). -/
def jsonField (v : Json) (key : String) : Option Json :=
  match v with
  | .obj fields => (fields.filter (fun f => f.1 = key.data)).getLast?.map (·.2)
  | _ => none

/-- Content blocks of the model reply (`message.content`). -/
inductive ContentBlock where
  | text (s : String)
  | other
deriving DecidableEq, Repr

/-- Errors of the reply handling: the two `throw` sites of
`generateTitleAndDescription` plus the `SyntaxError` that `JSON.parse`
itself throws on an unparseable extract (its message text is
runtime-dependent and left abstract). -/
inductive GenError where
  | unexpectedFormat
  | couldNotParse
  | jsonSyntax
deriving DecidableEq, Repr

/-- Reply handling of `generateTitleAndDescription` (src/index.ts:202-213):
take `content[0]`, require a text block, extract the braced substring,
`JSON.parse` it, and return the parsed value unchecked (the source merely
casts with `as GeneratedContent`). -/
def parseReply (blocks : List ContentBlock) : Except GenError Json :=
  match blocks.head? with
  | some (.text t) =>
    match extractBraced t.data with
    | some jsonChunk =>
      match jsonParse jsonChunk with
      | some v => .ok v
      | none => .error .jsonSyntax
    | none => .error .couldNotParse
  | _ => .error .unexpectedFormat

/-! ## Prompt assembly (src/index.ts:143-189) -/

/-- The optional context argument of `generateTitleAndDescription`. -/
structure GenContext where
  currentTitle : Option String
  currentBody : Option String
  base : Option String
  head : Option String
deriving DecidableEq, Repr

/-- JS string truthiness for optional string fields (`undefined`, `null`
and `""` are falsy). -/
def truthy : Option String → Bool
  | none => false
  | some s => s ≠ ""

/-- JSON string escaping as performed by `JSON.stringify`. -/
def escapeJsonChar (c : Char) : List Char :=
  if c = '"' then ['\\', '"']
  else if c = '\\' then ['\\', '\\']
  else if c = '\n' then ['\\', 'n']
  else if c = '\r' then ['\\', 'r']
  else if c = '\t' then ['\\', 't']
  else if c = '\x08' then ['\\', 'b']
  else if c = '\x0c' then ['\\', 'f']
  else if c.toNat < 0x20 then
    ['\\', 'u', '0', '0',
     (Nat.digitChar (c.toNat / 16)), (Nat.digitChar (c.toNat % 16))]
  else [c]

def quoteJson (s : String) : String :=
  String.mk ('"' :: s.data.flatMap escapeJsonChar ++ ['"'])

/-- One entry of `filesChanged` rendered by `JSON.stringify(..., null, 2)`
at array depth 1 (the `patch` key is omitted when the field is
`undefined`, as `JSON.stringify` drops undefined members). -/
def stringifyFileEntry (f : FileChange) : String :=
  "  \x7b\n    \"filename\": " ++ quoteJson f.filename ++
  ",\n    \"status\": " ++ quoteJson f.status ++
  ",\n    \"additions\": " ++ toString f.additions ++
  ",\n    \"deletions\": " ++ toString f.deletions ++
  ",\n    \"changes\": " ++ toString f.changes ++
  (match f.patch with
   | some p => ",\n    \"patch\": " ++ quoteJson (String.mk (p.data.take 1000))
   | none => "") ++
  "\n  \x7d"

/-- `JSON.stringify(filesChanged, null, 2)` where `filesChanged` is the
mapped per-file summary (patch truncated to 1000 units). -/
def stringifyFiles (files : List FileChange) : String :=
  match files with
  | [] => "[]"
  | f :: fs =>
    "[\n" ++ (fs.foldl (fun acc g => acc ++ ",\n" ++ stringifyFileEntry g)
      (stringifyFileEntry f)) ++ "\n]"

/-- The `contextInfo` template literal (src/index.ts:152-162). -/
def contextInfo : Option GenContext → String
  | none => ""
  | some ctx =>
    "\n" ++
    (match ctx.currentTitle with
     | some t => if t = "" then "" else "Current Title: " ++ t
     | none => "") ++ "\n" ++
    (match ctx.currentBody with
     | some b => if b = "" then "" else "Current Description: " ++ b
     | none => "") ++ "\n" ++
    (if truthy ctx.base ∧ truthy ctx.head then
       "Comparing: " ++ ctx.base.getD "" ++ "..." ++ ctx.head.getD ""
     else "") ++ "\n"

def promptTail : String :=
  "\n\nPlease generate:\n1. A PR title following the Conventional Commits format:\n   - Format: <type>(<scope>): <description>\n   - Types: feat, fix, docs, style, refactor, perf, test, build, ci, chore\n   - Scope: optional, the area of the codebase affected\n   - Description: brief summary in imperative mood, lowercase, no period at the end\n   - Example: \"feat(auth): add OAuth2 login support\"\n   - Example: \"fix(api): resolve null pointer exception in user endpoint\"\n\n2. A well-structured PR description that includes:\n   - A brief summary of what this PR does\n   - Key changes made\n   - Any notable technical details\n\nFormat your response as JSON with this exact structure:\n\x7b\n  \"title\": \"type(scope): description following conventional commits\",\n  \"description\": \"Your PR description in markdown format here\"\n\x7d\n\nKeep it concise and professional."

/-- The prompt string of `generateTitleAndDescription` (src/index.ts:164-189). -/
def buildPrompt (files : List FileChange) (context : Option GenContext) : String :=
  "Analyze these GitHub changes and generate a clear, concise PR title and description.\n" ++
  contextInfo context ++
  "\nFiles Changed (" ++ toString files.length ++ " files):\n" ++
  stringifyFiles files ++
  promptTail

/-! ## The driver (src/index.ts:229-367)

`main` is embedded as a pure function of the argument/environment snapshot
and a `Remote` oracle fixing the outcome of each remote call.  Its result
is the process exit code together with the ordered trace of the observable
effects this development reasons about (usage/error prints, the
"no changes" message, and the four remote calls).  A remote-call event is
recorded when the call is issued, whatever its outcome. -/

structure MainEnv where
  args : List String
  githubToken : Option String
  anthropicKey : Option String

/-- `comparison` as used by the compare path (`comparison.files` may be
absent in the API response type). -/
structure Comparison where
  files : Option (List FileChange)
deriving DecidableEq, Repr

structure Remote where
  prResult : Except String (PRData × List FileChange)
  compareResult : Except String Comparison
  genReply : Except String (List ContentBlock)
  updateResult : Except String Unit

inductive Event where
  | printUsage
  | printErr (msg : String)
  | noChanges
  | fetchPR
  | fetchCompare
  | generate (prompt : String)
  | updatePR (body : Option Json)

def isNetworkEvent : Event → Bool
  | .fetchPR | .fetchCompare | .generate _ | .updatePR _ => true
  | _ => false

structure MainResult where
  exitCode : Nat
  events : List Event

def genErrorMessage : GenError → String
  | .unexpectedFormat => "Unexpected response format from Anthropic API"
  | .couldNotParse => "Could not parse JSON response from Claude"
  | .jsonSyntax => "SyntaxError from JSON.parse"

def main (env : MainEnv) (remote : Remote) : MainResult :=
  if env.args.isEmpty || env.args.contains "--help" || env.args.contains "-h" then
    ⟨0, [.printUsage]⟩
  else if env.githubToken.getD "" = "" then
    ⟨1, [.printErr "Error: GITHUB_PRD_TOKEN environment variable is required"]⟩
  else if env.anthropicKey.getD "" = "" then
    ⟨1, [.printErr "Error: ANTHROPIC_API_KEY environment variable is required"]⟩
  else
    match env.args with
    | [] => ⟨1, [.printErr "Error: GitHub URL is required"]⟩
    | githubUrl :: _ =>
      if githubUrl = "" then ⟨1, [.printErr "Error: GitHub URL is required"]⟩
      else
        match parseGitHubUrl githubUrl with
        | .error e => ⟨1, [.printErr (errorMessage e)]⟩
        | .ok (.pr _) =>
          match remote.prResult with
          | .error m => ⟨1, [.fetchPR, .printErr m]⟩
          | .ok (pr, files) =>
            let prompt := buildPrompt files (some ⟨some pr.title, pr.body, none, none⟩)
            match remote.genReply with
            | .error m => ⟨1, [.fetchPR, .generate prompt, .printErr m]⟩
            | .ok blocks =>
              match parseReply blocks with
              | .error e =>
                ⟨1, [.fetchPR, .generate prompt, .printErr (genErrorMessage e)]⟩
              | .ok generated =>
                let body := jsonField generated "description"
                match remote.updateResult with
                | .error m =>
                  ⟨1, [.fetchPR, .generate prompt, .updatePR body, .printErr m]⟩
                | .ok _ =>
                  ⟨0, [.fetchPR, .generate prompt, .updatePR body]⟩
        | .ok (.compare compareDetails) =>
          match remote.compareResult with
          | .error m => ⟨1, [.fetchCompare, .printErr m]⟩
          | .ok comparison =>
            match comparison.files with
            | none => ⟨0, [.fetchCompare, .noChanges]⟩
            | some fs =>
              if fs.length = 0 then ⟨0, [.fetchCompare, .noChanges]⟩
              else
                let prompt := buildPrompt fs
                  (some ⟨none, none, some compareDetails.base, some compareDetails.head⟩)
                match remote.genReply with
                | .error m => ⟨1, [.fetchCompare, .generate prompt, .printErr m]⟩
                | .ok blocks =>
                  match parseReply blocks with
                  | .error e =>
                    ⟨1, [.fetchCompare, .generate prompt, .printErr (genErrorMessage e)]⟩
                  | .ok _ => ⟨0, [.fetchCompare, .generate prompt]⟩

/-! ## Lemmas: literal stripping and greedy runs -/

theorem stripLit_self (p r : List Char) : stripLit p (p ++ r) = some r := by
  induction p with
  | nil => rfl
  | cons c cs ih => simp [stripLit, ih]

theorem stripLit_eq_some {p s r : List Char} :
    stripLit p s = some r ↔ s = p ++ r := by
  induction p generalizing s with
  | nil => simp [stripLit, eq_comm]
  | cons c cs ih =>
    cases s with
    | nil => simp [stripLit]
    | cons d ds =>
      by_cases h : c = d
      · subst h
        simp [stripLit, ih]
      · simp [stripLit, beq_false_of_ne h, Ne.symm h]

theorem takeRun_append {p : Char → Bool} {l : List Char} (d : Char) (r : List Char)
    (hl : ∀ c ∈ l, p c = true) (hd : p d = false) :
    takeRun p (l ++ d :: r) = (l, d :: r) := by
  induction l with
  | nil => simp [takeRun, hd]
  | cons c cs ih =>
    have hc : p c = true := hl c (by simp)
    simp [takeRun, hc, ih (fun c hc => hl c (by simp [hc]))]

theorem takeRun_all {p : Char → Bool} {l : List Char}
    (hl : ∀ c ∈ l, p c = true) :
    takeRun p l = (l, []) := by
  induction l with
  | nil => rfl
  | cons c cs ih =>
    have hc : p c = true := hl c (by simp)
    simp [takeRun, hc, ih (fun c hc => hl c (by simp [hc]))]

theorem group1_append {p : Char → Bool} {l : List Char} (d : Char) (r : List Char)
    (hne : l ≠ []) (hl : ∀ c ∈ l, p c = true) (hd : p d = false) :
    group1 p (l ++ d :: r) = some (l, d :: r) := by
  simp [group1, takeRun_append d r hl hd, hne]

theorem group1_all {p : Char → Bool} {l : List Char}
    (hne : l ≠ []) (hl : ∀ c ∈ l, p c = true) :
    group1 p l = some (l, []) := by
  simp [group1, takeRun_all hl, hne]

/-! ## Lemmas: the left-to-right scan of the regex engine -/

theorem scanMatch_eq_some {f : List Char → Option α} {s : List Char} {v : α}
    (h : f s = some v) : scanMatch f s = some v := by
  cases s with
  | nil => simpa [scanMatch] using h
  | cons c cs => simp [scanMatch, h]

theorem scanMatch_cons_none {f : List Char → Option α} {c : Char} {cs : List Char}
    (h : f (c :: cs) = none) : scanMatch f (c :: cs) = scanMatch f cs := by
  simp [scanMatch, h]

theorem scanMatch_skip {f : List Char → Option α} {xs ys : List Char}
    (h : ∀ t, t <:+ xs → t ≠ [] → f (t ++ ys) = none) :
    scanMatch f (xs ++ ys) = scanMatch f ys := by
  induction xs with
  | nil => rfl
  | cons c cs ih =>
    have h1 : f (c :: (cs ++ ys)) = none := h (c :: cs) (List.suffix_refl _) (by simp)
    rw [List.cons_append, scanMatch_cons_none h1]
    exact ih fun t ht hne => h t (ht.trans (List.suffix_cons c cs)) hne

/-- Skipping the scheme prefix: no start position inside `https://` can begin
a `github.com/` literal. -/
theorem scan_https_pr (x : List Char) :
    scanMatch matchPRAt ("https://".data ++ x) = scanMatch matchPRAt x := rfl

theorem scan_https_cmp (x : List Char) :
    scanMatch matchCompareAt ("https://".data ++ x) = scanMatch matchCompareAt x := rfl

theorem scan_ithub_pr (x : List Char) :
    scanMatch matchPRAt ("ithub.com/".data ++ x) = scanMatch matchPRAt x := rfl

theorem scan_slash_pr (x : List Char) :
    scanMatch matchPRAt ('/' :: x) = scanMatch matchPRAt x := rfl

theorem scan_comparelit_pr (x : List Char) :
    scanMatch matchPRAt ("compare/".data ++ x) = scanMatch matchPRAt x := rfl

/-! ## Lemmas: single match attempts -/

theorem obind_some {α β} (a : α) (f : α → Option β) :
    (Option.some a).bind f = f a := rfl

theorem obind_none {α β} (f : α → Option β) :
    (Option.none).bind f = none := rfl

theorem omap_some {α β} (a : α) (f : α → β) :
    (Option.some a).map f = some (f a) := rfl

theorem omap_none {α β} (f : α → β) :
    (Option.none : Option α).map f = none := rfl

theorem group1_none_of_head {p : Char → Bool} {c : Char} {t : List Char}
    (hc : p c = false) : group1 p (c :: t) = none := by
  simp [group1, takeRun, hc]

theorem stripLit_slash (x : List Char) : stripLit ['/'] ('/' :: x) = some x := rfl

/-- The PR pattern succeeds at the `github.com/` anchor of a well-formed
pull URL, capturing owner, repo and the digit run. -/
theorem matchPRAt_hit {o r n : List Char} (tail : List Char)
    (ho1 : o ≠ []) (ho2 : ∀ c ∈ o, notSlash c = true)
    (hr1 : r ≠ []) (hr2 : ∀ c ∈ r, notSlash c = true)
    (hn1 : n ≠ []) (hnd : takeRun Char.isDigit tail = (n, [])) :
    matchPRAt ("github.com/".data ++
      (o ++ '/' :: (r ++ '/' :: 'p' :: 'u' :: 'l' :: 'l' :: '/' :: tail))) =
    some (o, r, n) := by
  have e1 := stripLit_self "github.com/".data
    (o ++ '/' :: (r ++ '/' :: 'p' :: 'u' :: 'l' :: 'l' :: '/' :: tail))
  have e2 := group1_append (p := notSlash)
    '/' (r ++ '/' :: 'p' :: 'u' :: 'l' :: 'l' :: '/' :: tail) ho1 ho2 (by decide)
  have e3 := group1_append (p := notSlash)
    '/' ('p' :: 'u' :: 'l' :: 'l' :: '/' :: tail) hr1 hr2 (by decide)
  have e4 : stripLit "/pull/".data ('/' :: 'p' :: 'u' :: 'l' :: 'l' :: '/' :: tail)
      = some tail := rfl
  have e5 : group1 Char.isDigit tail = some (n, []) := by
    simp [group1, hnd, hn1]
  simp only [matchPRAt, e1, obind_some, e2, stripLit_slash, e3, e4, e5, omap_some]

/-- The PR pattern fails at the `github.com/` anchor of a compare URL:
after owner and repo the literal `/pull/` meets `/compare/`. -/
theorem matchPRAt_compare_none {o r : List Char} (tail : List Char)
    (ho1 : o ≠ []) (ho2 : ∀ c ∈ o, notSlash c = true)
    (hr1 : r ≠ []) (hr2 : ∀ c ∈ r, notSlash c = true) :
    matchPRAt ("github.com/".data ++
      (o ++ '/' :: (r ++ '/' :: ("compare/".data ++ tail)))) = none := by
  have e1 := stripLit_self "github.com/".data
    (o ++ '/' :: (r ++ '/' :: ("compare/".data ++ tail)))
  have e2 := group1_append (p := notSlash)
    '/' (r ++ '/' :: ("compare/".data ++ tail)) ho1 ho2 (by decide)
  have e3 := group1_append (p := notSlash)
    '/' ("compare/".data ++ tail) hr1 hr2 (by decide)
  have e4 : stripLit "/pull/".data ('/' :: ("compare/".data ++ tail)) = none := rfl
  simp only [matchPRAt, e1, obind_some, e2, stripLit_slash, e3, e4, obind_none]

/-- The compare pattern succeeds at the `github.com/` anchor of a compare
URL, capturing owner, repo and the `[^?#]+` run of the trailing spec. -/
theorem matchCompareAt_hit {o r comp : List Char} (tail rest : List Char)
    (ho1 : o ≠ []) (ho2 : ∀ c ∈ o, notSlash c = true)
    (hr1 : r ≠ []) (hr2 : ∀ c ∈ r, notSlash c = true)
    (hc : group1 notQueryHash tail = some (comp, rest)) :
    matchCompareAt ("github.com/".data ++
      (o ++ '/' :: (r ++ '/' :: ("compare/".data ++ tail)))) =
    some (o, r, comp) := by
  have e1 := stripLit_self "github.com/".data
    (o ++ '/' :: (r ++ '/' :: ("compare/".data ++ tail)))
  have e2 := group1_append (p := notSlash)
    '/' (r ++ '/' :: ("compare/".data ++ tail)) ho1 ho2 (by decide)
  have e3 := group1_append (p := notSlash)
    '/' ("compare/".data ++ tail) hr1 hr2 (by decide)
  have e4 : stripLit "/compare/".data ('/' :: ("compare/".data ++ tail))
      = some tail := stripLit_self "/compare/".data tail
  simp only [matchCompareAt, e1, obind_some, e2, stripLit_slash, e3, e4, hc, omap_some]

/-! ## Lemmas: the PR pattern matches nowhere in a compare URL -/

theorem stripLit_githubcom_slashfree {t : List Char}
    (ht : ∀ c ∈ t, notSlash c = true) :
    stripLit "github.com/".data t = none := by
  cases h : stripLit "github.com/".data t with
  | none => rfl
  | some r =>
    exfalso
    have heq := stripLit_eq_some.mp h
    have hmem : '/' ∈ t := by
      rw [heq]
      exact List.mem_append_left _ (by decide)
    have := ht '/' hmem
    simp [notSlash] at this

theorem matchPRAt_none_of_stripLit {s : List Char}
    (h : stripLit "github.com/".data s = none) : matchPRAt s = none := by
  simp [matchPRAt, h]

theorem scanPR_slashfree {t : List Char} (ht : ∀ c ∈ t, notSlash c = true) :
    scanMatch matchPRAt t = none := by
  induction t with
  | nil => rfl
  | cons c cs ih =>
    rw [scanMatch_cons_none
      (matchPRAt_none_of_stripLit (stripLit_githubcom_slashfree ht))]
    exact ih fun c hc => ht c (by simp [hc])

/-- Two slash-free blocks followed by a slash decompose uniquely. -/
theorem first_slash_eq {x y u v : List Char}
    (hx : ∀ c ∈ x, notSlash c = true) (hy : ∀ c ∈ y, notSlash c = true)
    (h : x ++ '/' :: u = y ++ '/' :: v) : x = y := by
  induction x generalizing y with
  | nil =>
    cases y with
    | nil => rfl
    | cons d ds =>
      simp only [List.nil_append, List.cons_append, List.cons.injEq] at h
      have := hy d (by simp)
      rw [← h.1] at this
      simp [notSlash] at this
  | cons c cs ih =>
    cases y with
    | nil =>
      simp only [List.nil_append, List.cons_append, List.cons.injEq] at h
      have := hx c (by simp)
      rw [h.1] at this
      simp [notSlash] at this
    | cons d ds =>
      simp only [List.cons_append, List.cons.injEq] at h
      rw [h.1, ih (fun c hc => hx c (by simp [hc])) (fun c hc => hy c (by simp [hc])) h.2]

/-- The `github.com/` literal cannot start inside a slash-free segment
other than exactly at a `github.com` suffix of it. -/
theorem stripLit_githubcom_seg_none {t rest : List Char}
    (ht : ∀ c ∈ t, notSlash c = true) (hne : t ≠ "github.com".data) :
    stripLit "github.com/".data (t ++ '/' :: rest) = none := by
  cases h : stripLit "github.com/".data (t ++ '/' :: rest) with
  | none => rfl
  | some r =>
    exfalso
    have heq := stripLit_eq_some.mp h
    have heq2 : t ++ '/' :: rest = "github.com".data ++ '/' :: r := heq
    exact hne (first_slash_eq ht (by decide) heq2)

/-- One step through the `github.com/` anchor position during a failed scan. -/
theorem scan_github_cons (X : List Char)
    (h : matchPRAt ("github.com/".data ++ X) = none) :
    scanMatch matchPRAt ("github.com/".data ++ X) = scanMatch matchPRAt X := by
  have h2 : scanMatch matchPRAt ('g' :: ("ithub.com/".data ++ X))
      = scanMatch matchPRAt ("ithub.com/".data ++ X) := scanMatch_cons_none h
  rw [show ("github.com/".data ++ X) = 'g' :: ("ithub.com/".data ++ X) from rfl, h2,
    scan_ithub_pr]

theorem scanPR_skip_seg {t rest : List Char}
    (ht : ∀ c ∈ t, notSlash c = true) (hsuf : ¬ ("github.com".data <:+ t)) :
    scanMatch matchPRAt (t ++ '/' :: rest) = scanMatch matchPRAt ('/' :: rest) := by
  apply scanMatch_skip
  intro u hu hne
  apply matchPRAt_none_of_stripLit
  apply stripLit_githubcom_seg_none
  · exact fun c hc => ht c (hu.subset hc)
  · exact fun he => hsuf (he ▸ hu)

/-- The pull-request regex matches nowhere in
`https://github.com/<o>/<r>/compare/<tail>` when the owner and repo
segments are slash-free and do not end in `github.com`, and the trailing
spec is slash-free. -/
theorem scanPR_none_compare {o r : List Char} (tail : List Char)
    (ho1 : o ≠ []) (ho2 : ∀ c ∈ o, notSlash c = true)
    (hosuf : ¬ ("github.com".data <:+ o))
    (hr1 : r ≠ []) (hr2 : ∀ c ∈ r, notSlash c = true)
    (hrsuf : ¬ ("github.com".data <:+ r))
    (htail : ∀ c ∈ tail, notSlash c = true) :
    scanMatch matchPRAt ("https://github.com/".data ++
      (o ++ '/' :: (r ++ '/' :: ("compare/".data ++ tail)))) = none := by
  rw [show ("https://github.com/".data ++
        (o ++ '/' :: (r ++ '/' :: ("compare/".data ++ tail)))) =
      "https://".data ++ ("github.com/".data ++
        (o ++ '/' :: (r ++ '/' :: ("compare/".data ++ tail)))) from rfl]
  rw [scan_https_pr]
  rw [scan_github_cons _ (matchPRAt_compare_none tail ho1 ho2 hr1 hr2)]
  rw [scanPR_skip_seg ho2 hosuf, scan_slash_pr]
  rw [scanPR_skip_seg hr2 hrsuf, scan_slash_pr]
  rw [scan_comparelit_pr]
  exact scanPR_slashfree htail

/-! ## Lemmas: neither pattern matches anywhere in a malformed pull URL

Mirrors of the `matchPRAt` scan lemmas for `matchCompareAt`, used to show
that a `.../pull/<segment>` URL whose segment has no leading digit is
rejected by both regexes at every start position. -/

theorem matchCompareAt_none_of_stripLit {s : List Char}
    (h : stripLit "github.com/".data s = none) : matchCompareAt s = none := by
  simp [matchCompareAt, h]

theorem scanCMP_slashfree {t : List Char} (ht : ∀ c ∈ t, notSlash c = true) :
    scanMatch matchCompareAt t = none := by
  induction t with
  | nil => rfl
  | cons c cs ih =>
    rw [scanMatch_cons_none
      (matchCompareAt_none_of_stripLit (stripLit_githubcom_slashfree ht))]
    exact ih fun c hc => ht c (by simp [hc])

theorem scan_ithub_cmp (x : List Char) :
    scanMatch matchCompareAt ("ithub.com/".data ++ x) = scanMatch matchCompareAt x := rfl

theorem scan_slash_cmp (x : List Char) :
    scanMatch matchCompareAt ('/' :: x) = scanMatch matchCompareAt x := rfl

theorem scan_pulllit_pr (x : List Char) :
    scanMatch matchPRAt ('p' :: 'u' :: 'l' :: 'l' :: '/' :: x)
      = scanMatch matchPRAt x := rfl

theorem scan_pulllit_cmp (x : List Char) :
    scanMatch matchCompareAt ('p' :: 'u' :: 'l' :: 'l' :: '/' :: x)
      = scanMatch matchCompareAt x := rfl

theorem scan_github_cons_cmp (X : List Char)
    (h : matchCompareAt ("github.com/".data ++ X) = none) :
    scanMatch matchCompareAt ("github.com/".data ++ X)
      = scanMatch matchCompareAt X := by
  have h2 : scanMatch matchCompareAt ('g' :: ("ithub.com/".data ++ X))
      = scanMatch matchCompareAt ("ithub.com/".data ++ X) := scanMatch_cons_none h
  rw [show ("github.com/".data ++ X) = 'g' :: ("ithub.com/".data ++ X) from rfl, h2,
    scan_ithub_cmp]

theorem scanCMP_skip_seg {t rest : List Char}
    (ht : ∀ c ∈ t, notSlash c = true) (hsuf : ¬ ("github.com".data <:+ t)) :
    scanMatch matchCompareAt (t ++ '/' :: rest)
      = scanMatch matchCompareAt ('/' :: rest) := by
  apply scanMatch_skip
  intro u hu hne
  apply matchCompareAt_none_of_stripLit
  apply stripLit_githubcom_seg_none
  · exact fun c hc => ht c (hu.subset hc)
  · exact fun he => hsuf (he ▸ hu)

/-- At the anchor of a pull URL whose pull segment has no leading digit,
the PR pattern fails in the final `\d+` group. -/
theorem matchPRAt_pull_nondigit_none {o r : List Char} (n : List Char)
    (ho1 : o ≠ []) (ho2 : ∀ c ∈ o, notSlash c = true)
    (hr1 : r ≠ []) (hr2 : ∀ c ∈ r, notSlash c = true)
    (hn : group1 Char.isDigit n = none) :
    matchPRAt ("github.com/".data ++
      (o ++ '/' :: (r ++ '/' :: 'p' :: 'u' :: 'l' :: 'l' :: '/' :: n))) = none := by
  have e1 := stripLit_self "github.com/".data
    (o ++ '/' :: (r ++ '/' :: 'p' :: 'u' :: 'l' :: 'l' :: '/' :: n))
  have e2 := group1_append (p := notSlash)
    '/' (r ++ '/' :: 'p' :: 'u' :: 'l' :: 'l' :: '/' :: n) ho1 ho2 (by decide)
  have e3 := group1_append (p := notSlash)
    '/' ('p' :: 'u' :: 'l' :: 'l' :: '/' :: n) hr1 hr2 (by decide)
  have e4 : stripLit "/pull/".data ('/' :: 'p' :: 'u' :: 'l' :: 'l' :: '/' :: n)
      = some n := rfl
  simp only [matchPRAt, e1, obind_some, e2, stripLit_slash, e3, e4, hn,
    omap_none, obind_none]

/-- At the anchor of a pull URL the compare pattern fails in its
`/compare/` literal. -/
theorem matchCompareAt_pull_none {o r : List Char} (n : List Char)
    (ho1 : o ≠ []) (ho2 : ∀ c ∈ o, notSlash c = true)
    (hr1 : r ≠ []) (hr2 : ∀ c ∈ r, notSlash c = true) :
    matchCompareAt ("github.com/".data ++
      (o ++ '/' :: (r ++ '/' :: 'p' :: 'u' :: 'l' :: 'l' :: '/' :: n))) = none := by
  have e1 := stripLit_self "github.com/".data
    (o ++ '/' :: (r ++ '/' :: 'p' :: 'u' :: 'l' :: 'l' :: '/' :: n))
  have e2 := group1_append (p := notSlash)
    '/' (r ++ '/' :: 'p' :: 'u' :: 'l' :: 'l' :: '/' :: n) ho1 ho2 (by decide)
  have e3 := group1_append (p := notSlash)
    '/' ('p' :: 'u' :: 'l' :: 'l' :: '/' :: n) hr1 hr2 (by decide)
  have e4 : stripLit "/compare/".data ('/' :: 'p' :: 'u' :: 'l' :: 'l' :: '/' :: n)
      = none := rfl
  simp only [matchCompareAt, e1, obind_some, e2, stripLit_slash, e3, e4, obind_none]

theorem scanPR_none_pull {o r : List Char} (n : List Char)
    (ho1 : o ≠ []) (ho2 : ∀ c ∈ o, notSlash c = true)
    (hosuf : ¬ ("github.com".data <:+ o))
    (hr1 : r ≠ []) (hr2 : ∀ c ∈ r, notSlash c = true)
    (hrsuf : ¬ ("github.com".data <:+ r))
    (hns : ∀ c ∈ n, notSlash c = true)
    (hn : group1 Char.isDigit n = none) :
    scanMatch matchPRAt ("https://github.com/".data ++
      (o ++ '/' :: (r ++ '/' :: 'p' :: 'u' :: 'l' :: 'l' :: '/' :: n))) = none := by
  rw [show ("https://github.com/".data ++
        (o ++ '/' :: (r ++ '/' :: 'p' :: 'u' :: 'l' :: 'l' :: '/' :: n))) =
      "https://".data ++ ("github.com/".data ++
        (o ++ '/' :: (r ++ '/' :: 'p' :: 'u' :: 'l' :: 'l' :: '/' :: n))) from rfl]
  rw [scan_https_pr]
  rw [scan_github_cons _ (matchPRAt_pull_nondigit_none n ho1 ho2 hr1 hr2 hn)]
  rw [scanPR_skip_seg ho2 hosuf, scan_slash_pr]
  rw [scanPR_skip_seg hr2 hrsuf, scan_slash_pr]
  rw [scan_pulllit_pr]
  exact scanPR_slashfree hns

theorem scanCMP_none_pull {o r : List Char} (n : List Char)
    (ho1 : o ≠ []) (ho2 : ∀ c ∈ o, notSlash c = true)
    (hosuf : ¬ ("github.com".data <:+ o))
    (hr1 : r ≠ []) (hr2 : ∀ c ∈ r, notSlash c = true)
    (hrsuf : ¬ ("github.com".data <:+ r))
    (hns : ∀ c ∈ n, notSlash c = true) :
    scanMatch matchCompareAt ("https://github.com/".data ++
      (o ++ '/' :: (r ++ '/' :: 'p' :: 'u' :: 'l' :: 'l' :: '/' :: n))) = none := by
  rw [show ("https://github.com/".data ++
        (o ++ '/' :: (r ++ '/' :: 'p' :: 'u' :: 'l' :: 'l' :: '/' :: n))) =
      "https://".data ++ ("github.com/".data ++
        (o ++ '/' :: (r ++ '/' :: 'p' :: 'u' :: 'l' :: 'l' :: '/' :: n))) from rfl]
  rw [scan_https_cmp]
  rw [scan_github_cons_cmp _ (matchCompareAt_pull_none n ho1 ho2 hr1 hr2)]
  rw [scanCMP_skip_seg ho2 hosuf, scan_slash_cmp]
  rw [scanCMP_skip_seg hr2 hrsuf, scan_slash_cmp]
  rw [scan_pulllit_cmp]
  exact scanCMP_slashfree hns

/-! ## Lemmas: `parseInt` as a double -/

theorem parseIntDigits_exact {s : List Char} (h : digitsToNat s < 2 ^ 53) :
    parseIntDigits s = digitsToNat s := by
  unfold parseIntDigits roundToDouble
  rw [if_pos h]

theorem parseIntDigits_zero {s : List Char} (h : digitsToNat s = 0) :
    parseIntDigits s = 0 := by
  unfold parseIntDigits
  rw [h]
  rfl

theorem parseIntDigits_pos {s : List Char} (h : 0 < digitsToNat s) :
    0 < parseIntDigits s := by
  unfold parseIntDigits roundToDouble
  split
  · exact h
  · have hn0 : digitsToNat s ≠ 0 := by omega
    have hkle : 2 ^ ((digitsToNat s).log2 - 52) ≤ digitsToNat s :=
      le_trans (Nat.pow_le_pow_right (by norm_num) (Nat.sub_le _ _))
        (Nat.log2_self_le hn0)
    have hq : 0 < digitsToNat s / 2 ^ ((digitsToNat s).log2 - 52) :=
      Nat.div_pos hkle (pow_pos (by norm_num) _)
    dsimp only
    split
    · exact Nat.mul_pos (by omega) (pow_pos (by norm_num) _)
    · exact Nat.mul_pos hq (pow_pos (by norm_num) _)

/-! ## Lemmas: `split("...")` -/

theorem splitDots_noTriple {l : List Char} (h : noTriple l = true) :
    splitDots l = [l] := by
  induction l using noTriple.induct with
  | case1 t => simp [noTriple] at h
  | case2 c rest hg ih =>
    have h' : noTriple rest = true := by
      rwa [show noTriple (c :: rest) = noTriple rest from noTriple.eq_2 c rest hg] at h
    rw [splitDots.eq_3 c rest hg, ih h']
  | case3 => rfl

theorem split_left : ∀ (A : List Char), okLeft A = true →
    ∀ (B : List Char), splitDots (A ++ '.' :: '.' :: '.' :: B) = A :: splitDots B := by
  intro A
  induction A using okLeft.induct with
  | case1 => intro _ B; rw [List.nil_append, splitDots.eq_2]
  | case2 => intro h; simp [okLeft] at h
  | case3 t => intro h; simp [okLeft] at h
  | case4 c rest hg1 hg2 ih =>
    intro h B
    have h' : okLeft rest = true := by rwa [okLeft.eq_4 c rest hg1 hg2] at h
    have hg3 : ∀ t, c = '.' → rest ++ '.' :: '.' :: '.' :: B = '.' :: '.' :: t → False := by
      intro t hc hr
      cases rest with
      | nil => exact hg1 hc rfl
      | cons d ds =>
        cases ds with
        | nil =>
          simp only [List.cons_append, List.nil_append, List.cons.injEq] at hr
          rw [hr.1] at h'
          simp [okLeft] at h'
        | cons e es =>
          simp only [List.cons_append, List.cons.injEq] at hr
          exact hg2 es hc (by rw [hr.1, hr.2.1])
    rw [List.cons_append, splitDots.eq_3 c _ hg3, ih h' B]

theorem splitDots_two {A B : List Char} (hA : okLeft A = true) (hB : noTriple B = true) :
    splitDots (A ++ '.' :: '.' :: '.' :: B) = [A, B] := by
  rw [split_left A hA B, splitDots_noTriple hB]

theorem splitDots_three {A B C : List Char} (hA : okLeft A = true)
    (hB : okLeft B = true) (hC : noTriple C = true) :
    splitDots (A ++ '.' :: '.' :: '.' :: (B ++ '.' :: '.' :: '.' :: C)) = [A, B, C] := by
  rw [split_left A hA, splitDots_two hB hC]

/-! ## Lemmas: brace extraction -/

theorem dropBefore_skip {c : Char} {p : List Char} (hp : ∀ d ∈ p, d ≠ c)
    (s : List Char) : dropBefore c (p ++ s) = dropBefore c s := by
  induction p with
  | nil => rfl
  | cons d ds ih =>
    have hd : d ≠ c := hp d (by simp)
    have hstep : dropBefore c (d :: (ds ++ s)) = dropBefore c (ds ++ s) := by
      simp [dropBefore, beq_false_of_ne hd]
    rw [List.cons_append, hstep]
    exact ih fun d hd => hp d (by simp [hd])

theorem dropBefore_none {c : Char} {s : List Char} (hs : ∀ d ∈ s, d ≠ c) :
    dropBefore c s = none := by
  induction s with
  | nil => rfl
  | cons d ds ih =>
    have hd : d ≠ c := hs d (by simp)
    have hstep : dropBefore c (d :: ds) = dropBefore c ds := by
      simp [dropBefore, beq_false_of_ne hd]
    rw [hstep]
    exact ih fun d hd => hs d (by simp [hd])

theorem dropBefore_hit (c : Char) (s : List Char) :
    dropBefore c (c :: s) = some (c :: s) := by
  simp [dropBefore]

/-- The greedy brace regex extracts from the first opening brace to the
last closing brace when the surrounding prose is brace-free. -/
theorem extractBraced_embed {p q : List Char} (mid : List Char)
    (hp : ∀ d ∈ p, d ≠ '\x7b') (hq : ∀ d ∈ q, d ≠ '\x7d') :
    extractBraced (p ++ '\x7b' :: (mid ++ '\x7d' :: q)) = some ('\x7b' :: (mid ++ ['\x7d'])) := by
  rw [extractBraced, dropBefore_skip hp, dropBefore_hit, obind_some, takeThruLast]
  have hrev : ('\x7b' :: (mid ++ '\x7d' :: q)).reverse
      = q.reverse ++ '\x7d' :: (mid.reverse ++ ['\x7b']) := by
    simp
  rw [hrev, dropBefore_skip (fun d hd => hq d (List.mem_reverse.mp hd)), dropBefore_hit]
  simp

theorem extractBraced_none {t : List Char} (ht : ∀ d ∈ t, d ≠ '\x7b') :
    extractBraced t = none := by
  rw [extractBraced, dropBefore_none ht, obind_none]

/-! ## Lemmas: the reply handler, case by case -/

theorem parseReply_ok {t : String} {bs : List ContentBlock} {e : List Char} {v : Json}
    (he : extractBraced t.data = some e) (hv : jsonParse e = some v) :
    parseReply (ContentBlock.text t :: bs) = .ok v := by
  simp [parseReply, he, hv]

theorem parseReply_noExtract {t : String} {bs : List ContentBlock}
    (he : extractBraced t.data = none) :
    parseReply (ContentBlock.text t :: bs) = .error .couldNotParse := by
  simp [parseReply, he]

theorem parseReply_syntax {t : String} {bs : List ContentBlock} {e : List Char}
    (he : extractBraced t.data = some e) (hv : jsonParse e = none) :
    parseReply (ContentBlock.text t :: bs) = .error .jsonSyntax := by
  simp [parseReply, he, hv]

/-! ## Miscellaneous glue -/

theorem strData_append (a b : String) : (a ++ b).data = a.data ++ b.data := rfl

theorem mk_ne_empty {l : List Char} (h : l ≠ []) : String.mk l ≠ "" := by
  intro he
  apply h
  have := congrArg String.data he
  simpa using this

theorem url_split19 (X : List Char) :
    "https://github.com/".data ++ X = "https://".data ++ ("github.com/".data ++ X) := by
  rw [show ("https://github.com/".data : List Char)
      = "https://".data ++ "github.com/".data from rfl, List.append_assoc]

theorem mem_dots3 {c : Char} {B : List Char} (h : c ∈ ('.' :: '.' :: '.' :: B)) :
    c = '.' ∨ c ∈ B := by
  rcases List.mem_cons.mp h with h | h
  · exact Or.inl h
  · rcases List.mem_cons.mp h with h | h
    · exact Or.inl h
    · rcases List.mem_cons.mp h with h | h
      · exact Or.inl h
      · exact Or.inr h

theorem mem_tail2 {c : Char} {A B : List Char}
    (h : c ∈ A ++ '.' :: '.' :: '.' :: B) : c ∈ A ∨ c = '.' ∨ c ∈ B := by
  rcases List.mem_append.mp h with h | h
  · exact Or.inl h
  · rcases mem_dots3 h with h | h
    · exact Or.inr (Or.inl h)
    · exact Or.inr (Or.inr h)

theorem group1_ne_nil {p : Char → Bool} {s comp rest : List Char}
    (h : group1 p s = some (comp, rest)) : comp ≠ [] := by
  intro he
  subst he
  by_cases h2 : (takeRun p s).1 = []
  · rw [group1, if_pos h2] at h
    exact absurd h (by simp)
  · rw [group1, if_neg h2] at h
    have h3 := (Option.some.injEq _ _).mp h
    exact h2 (by rw [h3])

/-- Common core of the compare-URL cases: a URL whose character data has
the canonical `https://github.com/<O>/<R>/compare/<tail>` shape parses by
the compare regex alone, and the result is determined by
`splitDots` on the `[^?#]+` capture of the tail. -/
theorem parse_compare_core {u O R : String} {tail comp rest : List Char}
    {parts : List (List Char)}
    (hO : cleanSeg O) (hR : cleanSeg R) (htail : ∀ c ∈ tail, c ≠ '/')
    (hdata : u.data = "https://github.com/".data ++
      (O.data ++ '/' :: (R.data ++ '/' :: ("compare/".data ++ tail))))
    (hg : group1 notQueryHash tail = some (comp, rest))
    (hsplit : splitDots comp = parts) :
    parseGitHubUrl u = splitRes O.data R.data parts := by
  obtain ⟨hO1, hO2, hO3⟩ := hO
  obtain ⟨hR1, hR2, hR3⟩ := hR
  have ho2' : ∀ c ∈ O.data, notSlash c = true := fun c hc => by
    simp [notSlash, hO2 c hc]
  have hr2' : ∀ c ∈ R.data, notSlash c = true := fun c hc => by
    simp [notSlash, hR2 c hc]
  have htail' : ∀ c ∈ tail, notSlash c = true := fun c hc => by
    simp [notSlash, htail c hc]
  have hne : u ≠ "" := by
    intro he
    rw [he] at hdata
    simp at hdata
  have hPR : scanMatch matchPRAt u.data = none := by
    rw [hdata]
    exact scanPR_none_compare tail hO1 ho2' hO3 hR1 hr2' hR3 htail'
  have hCMP : scanMatch matchCompareAt u.data = some (O.data, R.data, comp) := by
    rw [hdata, url_split19, scan_https_cmp]
    exact scanMatch_eq_some (matchCompareAt_hit tail rest hO1 ho2' hR1 hr2' hg)
  rw [parseGitHubUrl, if_neg hne, hPR, hCMP]
  dsimp only
  rw [if_neg (by simp [hO1, hR1, group1_ne_nil hg]), hsplit]
  cases parts with
  | nil => rfl
  | cons a t =>
    cases t with
    | nil => rfl
    | cons b t2 =>
      cases t2 with
      | nil => rfl
      | cons c t3 => rfl

/-! ## Claim C5: compare URLs -/

/-- C5: compare URLs (over clean owner/repo segments and branch names
that split unambiguously): `A...B` parses to base `A` / head `B`; a lone
branch parses to base `"main"`; a `?`- or `#`-suffix is stripped before
splitting; three `...`-separated parts fail with the
invalid-comparison-format error. -/
theorem compare_url_parse_spec :
    (∀ O R A B : String, cleanSeg O → cleanSeg R → cleanBranch A → cleanBranch B →
      okLeft A.data = true → noTriple B.data = true →
      parseGitHubUrl ("https://github.com/" ++ O ++ "/" ++ R ++ "/compare/" ++ A ++ "..." ++ B)
        = .ok (.compare ⟨O, R, A, B⟩)) ∧
    (∀ O R B : String, cleanSeg O → cleanSeg R → cleanBranch B →
      B.data ≠ [] → noTriple B.data = true →
      parseGitHubUrl ("https://github.com/" ++ O ++ "/" ++ R ++ "/compare/" ++ B)
        = .ok (.compare ⟨O, R, "main", B⟩)) ∧
    (∀ O R A B suf : String, cleanSeg O → cleanSeg R → cleanBranch A → cleanBranch B →
      okLeft A.data = true → noTriple B.data = true →
      (∃ qs : List Char, (suf.data = '?' :: qs ∨ suf.data = '#' :: qs) ∧
        ∀ c ∈ qs, c ≠ '/') →
      parseGitHubUrl
          ("https://github.com/" ++ O ++ "/" ++ R ++ "/compare/" ++ A ++ "..." ++ B ++ suf)
        = .ok (.compare ⟨O, R, A, B⟩)) ∧
    (∀ O R A B C : String, cleanSeg O → cleanSeg R →
      cleanBranch A → cleanBranch B → cleanBranch C →
      okLeft A.data = true → okLeft B.data = true → noTriple C.data = true →
      parseGitHubUrl
          ("https://github.com/" ++ O ++ "/" ++ R ++ "/compare/" ++ A ++ "..." ++ B ++ "..." ++ C)
        = .error .invalidComparisonFormat) := by
  have dotNQH : notQueryHash '.' = true := by decide
  refine ⟨?_, ?_, ?_, ?_⟩
  · intro O R A B hO hR hA hB hokA hnB
    have hdata : ("https://github.com/" ++ O ++ "/" ++ R ++ "/compare/" ++ A ++ "..." ++ B).data
        = "https://github.com/".data ++ (O.data ++ '/' :: (R.data ++ '/' ::
          ("compare/".data ++ (A.data ++ '.' :: '.' :: '.' :: B.data)))) := by
      simp [strData_append, List.append_assoc]
    have htail : ∀ c ∈ A.data ++ '.' :: '.' :: '.' :: B.data, c ≠ '/' := by
      intro c hc
      rcases mem_tail2 hc with h | h | h
      · exact (hA c h).1
      · simp [h]
      · exact (hB c h).1
    have hqh : ∀ c ∈ A.data ++ '.' :: '.' :: '.' :: B.data, notQueryHash c = true := by
      intro c hc
      rcases mem_tail2 hc with h | h | h
      · simp [notQueryHash, (hA c h).2.1, (hA c h).2.2]
      · simp [h, dotNQH]
      · simp [notQueryHash, (hB c h).2.1, (hB c h).2.2]
    have hne : A.data ++ '.' :: '.' :: '.' :: B.data ≠ [] := by simp
    exact parse_compare_core hO hR htail hdata (group1_all hne hqh)
      (splitDots_two hokA hnB)
  · intro O R B hO hR hB hBne hnB
    have hdata : ("https://github.com/" ++ O ++ "/" ++ R ++ "/compare/" ++ B).data
        = "https://github.com/".data ++ (O.data ++ '/' :: (R.data ++ '/' ::
          ("compare/".data ++ B.data))) := by
      simp [strData_append, List.append_assoc]
    have htail : ∀ c ∈ B.data, c ≠ '/' := fun c h => (hB c h).1
    have hqh : ∀ c ∈ B.data, notQueryHash c = true := fun c h => by
      simp [notQueryHash, (hB c h).2.1, (hB c h).2.2]
    exact parse_compare_core hO hR htail hdata (group1_all hBne hqh)
      (splitDots_noTriple hnB)
  · intro O R A B suf hO hR hA hB hokA hnB hsuf
    obtain ⟨qs, hqs, hqs2⟩ := hsuf
    have hdata : ("https://github.com/" ++ O ++ "/" ++ R ++ "/compare/" ++ A ++ "..." ++ B ++ suf).data
        = "https://github.com/".data ++ (O.data ++ '/' :: (R.data ++ '/' ::
          ("compare/".data ++ ((A.data ++ '.' :: '.' :: '.' :: B.data) ++ suf.data)))) := by
      simp [strData_append, List.append_assoc]
    have htail : ∀ c ∈ (A.data ++ '.' :: '.' :: '.' :: B.data) ++ suf.data, c ≠ '/' := by
      intro c hc
      rcases List.mem_append.mp hc with h | h
      · rcases mem_tail2 h with h | h | h
        · exact (hA c h).1
        · simp [h]
        · exact (hB c h).1
      · rcases hqs with hq | hq
        · rw [hq] at h
          rcases List.mem_cons.mp h with h | h
          · simp [h]
          · exact hqs2 c h
        · rw [hq] at h
          rcases List.mem_cons.mp h with h | h
          · simp [h]
          · exact hqs2 c h
    have hqh : ∀ c ∈ A.data ++ '.' :: '.' :: '.' :: B.data, notQueryHash c = true := by
      intro c hc
      rcases mem_tail2 hc with h | h | h
      · simp [notQueryHash, (hA c h).2.1, (hA c h).2.2]
      · simp [h, dotNQH]
      · simp [notQueryHash, (hB c h).2.1, (hB c h).2.2]
    have hAB : A.data ++ '.' :: '.' :: '.' :: B.data ≠ [] := by simp
    have hg : group1 notQueryHash ((A.data ++ '.' :: '.' :: '.' :: B.data) ++ suf.data)
        = some (A.data ++ '.' :: '.' :: '.' :: B.data, suf.data) := by
      rcases hqs with hq | hq
      · rw [hq]
        exact group1_append '?' qs hAB hqh (by decide)
      · rw [hq]
        exact group1_append '#' qs hAB hqh (by decide)
    exact parse_compare_core hO hR htail hdata hg (splitDots_two hokA hnB)
  · intro O R A B C hO hR hA hB hC hokA hokB hnC
    have hdata : ("https://github.com/" ++ O ++ "/" ++ R ++ "/compare/" ++ A ++ "..." ++ B ++ "..." ++ C).data
        = "https://github.com/".data ++ (O.data ++ '/' :: (R.data ++ '/' ::
          ("compare/".data ++
            (A.data ++ '.' :: '.' :: '.' :: (B.data ++ '.' :: '.' :: '.' :: C.data))))) := by
      simp [strData_append, List.append_assoc]
    have htail : ∀ c ∈ A.data ++ '.' :: '.' :: '.' :: (B.data ++ '.' :: '.' :: '.' :: C.data),
        c ≠ '/' := by
      intro c hc
      rcases mem_tail2 hc with h | h | h
      · exact (hA c h).1
      · simp [h]
      · rcases mem_tail2 h with h2 | h2 | h2
        · exact (hB c h2).1
        · simp [h2]
        · exact (hC c h2).1
    have hqh : ∀ c ∈ A.data ++ '.' :: '.' :: '.' :: (B.data ++ '.' :: '.' :: '.' :: C.data),
        notQueryHash c = true := by
      intro c hc
      rcases mem_tail2 hc with h | h | h
      · simp [notQueryHash, (hA c h).2.1, (hA c h).2.2]
      · simp [h, dotNQH]
      · rcases mem_tail2 h with h2 | h2 | h2
        · simp [notQueryHash, (hB c h2).2.1, (hB c h2).2.2]
        · simp [h2, dotNQH]
        · simp [notQueryHash, (hC c h2).2.1, (hC c h2).2.2]
    have hne : A.data ++ '.' :: '.' :: '.' :: (B.data ++ '.' :: '.' :: '.' :: C.data) ≠ [] := by
      simp
    exact parse_compare_core hO hR htail hdata (group1_all hne hqh)
      (splitDots_three hokA hokB hnC)

theorem compare_url_parse_spec_witness :
    parseGitHubUrl "https://github.com/acme/widgets/compare/main...feature"
      = .ok (.compare ⟨"acme", "widgets", "main", "feature"⟩) ∧
    parseGitHubUrl "https://github.com/acme/widgets/compare/feature"
      = .ok (.compare ⟨"acme", "widgets", "main", "feature"⟩) ∧
    parseGitHubUrl "https://github.com/acme/widgets/compare/main...feature?x=1"
      = .ok (.compare ⟨"acme", "widgets", "main", "feature"⟩) ∧
    parseGitHubUrl "https://github.com/acme/widgets/compare/a...b...c"
      = .error .invalidComparisonFormat := by
  refine ⟨?_, ?_, ?_, ?_⟩
  · exact compare_url_parse_spec.1 "acme" "widgets" "main" "feature"
      (by constructor <;> decide) (by constructor <;> decide)
      (by decide) (by decide) (by decide) (by decide)
  · exact compare_url_parse_spec.2.1 "acme" "widgets" "feature"
      (by constructor <;> decide) (by constructor <;> decide)
      (by decide) (by decide) (by decide)
  · exact compare_url_parse_spec.2.2.1 "acme" "widgets" "main" "feature" "?x=1"
      (by constructor <;> decide) (by constructor <;> decide)
      (by decide) (by decide) (by decide) (by decide)
      ⟨"x=1".data, Or.inl rfl, by decide⟩
  · exact compare_url_parse_spec.2.2.2 "acme" "widgets" "a" "b" "c"
      (by constructor <;> decide) (by constructor <;> decide)
      (by decide) (by decide) (by decide) (by decide) (by decide) (by decide)

/-! ## Claims C6-C10: the CLI driver -/

/-- C10: no arguments, or `--help`/`-h` anywhere in the argument list,
prints the usage text and exits 0; the check precedes the credential
checks, so this holds for every environment, including one with both
credentials absent. -/
theorem help_flag_prints_usage :
    ∀ (env : MainEnv) (remote : Remote),
      env.args = [] ∨ "--help" ∈ env.args ∨ "-h" ∈ env.args →
      main env remote = ⟨0, [.printUsage]⟩ := by
  intro env remote h
  have hc : (env.args.isEmpty || env.args.contains "--help" || env.args.contains "-h")
      = true := by
    rcases h with h | h | h
    · simp [h]
    · simp [List.contains, h]
    · simp [List.contains, h]
  rw [main, if_pos hc]

theorem help_flag_prints_usage_witness :
    main ⟨["--help"], none, none⟩ ⟨.error "", .error "", .error "", .error ""⟩
      = ⟨0, [.printUsage]⟩ :=
  help_flag_prints_usage _ _ (Or.inr (Or.inl (by simp)))

/-- C6: past the help check, a missing (or empty, which JavaScript
truthiness treats the same) source-host token or generation key makes the
driver exit with code 1 after printing an error, with no network event in
the trace. -/
theorem missing_credentials_exit_one :
    ∀ (env : MainEnv) (remote : Remote),
      env.args ≠ [] → "--help" ∉ env.args → "-h" ∉ env.args →
      (env.githubToken.getD "" = "" ∨ env.anthropicKey.getD "" = "") →
      (main env remote).exitCode = 1 ∧
      (∀ e ∈ (main env remote).events, isNetworkEvent e = false) ∧
      ∃ m, Event.printErr m ∈ (main env remote).events := by
  intro env remote ha h1 h2 hcred
  obtain ⟨u, rest, hcons⟩ : ∃ u rest, env.args = u :: rest := by
    cases henv : env.args with
    | nil => exact absurd henv ha
    | cons u r => exact ⟨u, r, rfl⟩
  have hc1 : (env.args.isEmpty || env.args.contains "--help" || env.args.contains "-h")
      = false := by
    rw [hcons]
    rw [hcons] at h1 h2
    simp [List.contains, h1, h2]
  have hcn : ¬ ((env.args.isEmpty || env.args.contains "--help"
      || env.args.contains "-h") = true) := by
    rw [hc1]
    simp
  by_cases htok : env.githubToken.getD "" = ""
  · rw [main, if_neg hcn, if_pos htok]
    exact ⟨rfl, by simp [isNetworkEvent],
      ⟨"Error: GITHUB_PRD_TOKEN environment variable is required", by simp⟩⟩
  · have hkey : env.anthropicKey.getD "" = "" := hcred.resolve_left htok
    rw [main, if_neg hcn, if_neg htok, if_pos hkey]
    exact ⟨rfl, by simp [isNetworkEvent],
      ⟨"Error: ANTHROPIC_API_KEY environment variable is required", by simp⟩⟩

theorem missing_credentials_exit_one_witness :
    (main ⟨["https://github.com/o/r/pull/1"], none, some "k"⟩
      ⟨.error "", .error "", .error "", .error ""⟩).exitCode = 1 ∧
    (∀ e ∈ (main ⟨["https://github.com/o/r/pull/1"], none, some "k"⟩
      ⟨.error "", .error "", .error "", .error ""⟩).events, isNetworkEvent e = false) ∧
    ∃ m, Event.printErr m ∈ (main ⟨["https://github.com/o/r/pull/1"], none, some "k"⟩
      ⟨.error "", .error "", .error "", .error ""⟩).events :=
  missing_credentials_exit_one _ _ (by simp) (by simp) (by simp) (Or.inl rfl)

/-- C7: on the compare path, a comparison with no changed files
short-circuits to the "no changes" report and exit code 0 without
invoking the Content Generator. -/
theorem compare_no_changes_short_circuit :
    ∀ (env : MainEnv) (remote : Remote) (url : String) (rest : List String)
      (cd : CompareDetails) (cmp : Comparison),
      env.args = url :: rest → "--help" ∉ env.args → "-h" ∉ env.args →
      env.githubToken.getD "" ≠ "" → env.anthropicKey.getD "" ≠ "" →
      parseGitHubUrl url = .ok (.compare cd) →
      remote.compareResult = .ok cmp →
      (cmp.files = none ∨ cmp.files = some []) →
      main env remote = ⟨0, [.fetchCompare, .noChanges]⟩ ∧
      ∀ p, Event.generate p ∉ (main env remote).events := by
  intro env remote url rest cd cmp ha h1 h2 htok hkey hparse hcmp hfiles
  have hu : url ≠ "" := by
    intro he
    rw [he, parseGitHubUrl, if_pos rfl] at hparse
    exact absurd hparse (by simp)
  have hc1 : (env.args.isEmpty || env.args.contains "--help" || env.args.contains "-h")
      = false := by
    rw [ha]
    rw [ha] at h1 h2
    simp [List.contains, h1, h2]
  have hcn : ¬ ((env.args.isEmpty || env.args.contains "--help"
      || env.args.contains "-h") = true) := by
    rw [hc1]
    simp
  have hmain : main env remote = ⟨0, [.fetchCompare, .noChanges]⟩ := by
    rw [main, if_neg hcn, if_neg htok, if_neg hkey, ha]
    dsimp only
    rw [if_neg hu, hparse]
    dsimp only
    rw [hcmp]
    dsimp only
    rcases hfiles with h | h
    · rw [h]
    · rw [h]
      dsimp only
      simp
  refine ⟨hmain, ?_⟩
  rw [hmain]
  intro p
  simp

theorem compare_no_changes_short_circuit_witness :
    main ⟨["https://github.com/o/r/compare/a...b"], some "t", some "k"⟩
        ⟨.error "", .ok ⟨some []⟩, .error "", .error ""⟩
      = ⟨0, [.fetchCompare, .noChanges]⟩ ∧
    ∀ p, Event.generate p ∉ (main ⟨["https://github.com/o/r/compare/a...b"], some "t", some "k"⟩
        ⟨.error "", .ok ⟨some []⟩, .error "", .error ""⟩).events :=
  compare_no_changes_short_circuit _ _ "https://github.com/o/r/compare/a...b" [] ⟨"o", "r", "a", "b"⟩ ⟨some []⟩
    rfl (by simp) (by simp) (by simp) (by simp) rfl rfl (Or.inr rfl)

/-- C8: the write-back `updatePRDescription` is reachable only on the
pull-request path: whenever an update event is in the trace, the first
argument parsed to a pull-request reference; consequently no run whose
URL parses to a compare reference ever updates anything. -/
theorem update_only_on_pr_path :
    (∀ (env : MainEnv) (remote : Remote) (b : Option Json),
      Event.updatePR b ∈ (main env remote).events →
      ∃ url rest pd, env.args = url :: rest ∧ parseGitHubUrl url = .ok (.pr pd)) ∧
    (∀ (env : MainEnv) (remote : Remote) (url : String) (rest : List String)
      (cd : CompareDetails) (b : Option Json),
      env.args = url :: rest → parseGitHubUrl url = .ok (.compare cd) →
      Event.updatePR b ∉ (main env remote).events) := by
  have part1 : ∀ (env : MainEnv) (remote : Remote) (b : Option Json),
      Event.updatePR b ∈ (main env remote).events →
      ∃ url rest pd, env.args = url :: rest ∧ parseGitHubUrl url = .ok (.pr pd) := by
    intro env remote b hmem
    rw [main] at hmem
    dsimp only at hmem
    repeat' split at hmem
    all_goals first
      | exact ⟨_, _, _, by assumption, by assumption⟩
      | simp at hmem
  refine ⟨part1, ?_⟩
  intro env remote url rest cd b ha hparse hmem
  obtain ⟨url2, rest2, pd, ha2, hp2⟩ := part1 env remote b hmem
  rw [ha] at ha2
  have hurl : url = url2 := (List.cons.injEq _ _ _ _).mp ha2 |>.1
  rw [← hurl, hparse] at hp2
  exact absurd ((Except.ok.injEq _ _).mp hp2) (by simp)

theorem update_only_on_pr_path_witness :
    ∃ url rest pd,
      (["https://github.com/o/r/pull/1"] : List String) = url :: rest ∧
      parseGitHubUrl url = .ok (.pr pd) :=
  update_only_on_pr_path.1
    ⟨["https://github.com/o/r/pull/1"], some "t", some "k"⟩
    ⟨.ok (⟨"T", none, "u"⟩, []), .error "", .ok [ContentBlock.text "\x7b\x7d"], .ok ()⟩
    (jsonField (Json.obj []) "description") (by
      have hm : main ⟨["https://github.com/o/r/pull/1"], some "t", some "k"⟩
          ⟨.ok (⟨"T", none, "u"⟩, []), .error "", .ok [ContentBlock.text "\x7b\x7d"], .ok ()⟩
          = ⟨0, [Event.fetchPR,
              Event.generate (buildPrompt [] (some ⟨some "T", none, none, none⟩)),
              Event.updatePR (jsonField (Json.obj []) "description")]⟩ := rfl
      rw [hm]
      simp)

/-- C9: the pull-request path has no zero-changed-files short circuit:
with an empty fetched file list the generator is still invoked — its
prompt announcing 0 files — and the PR body is still overwritten with
whatever `description` field the generated object carries. -/
theorem pr_path_empty_files_still_generates :
    ∀ (env : MainEnv) (remote : Remote) (url : String) (rest : List String)
      (pd : PRDetails) (pr : PRData) (blocks : List ContentBlock) (v : Json),
      env.args = url :: rest → "--help" ∉ env.args → "-h" ∉ env.args →
      env.githubToken.getD "" ≠ "" → env.anthropicKey.getD "" ≠ "" →
      parseGitHubUrl url = .ok (.pr pd) →
      remote.prResult = .ok (pr, []) →
      remote.genReply = .ok blocks →
      parseReply blocks = .ok v →
      Event.generate (buildPrompt [] (some ⟨some pr.title, pr.body, none, none⟩))
          ∈ (main env remote).events ∧
      (∃ s1 s2 : String,
        buildPrompt [] (some ⟨some pr.title, pr.body, none, none⟩)
          = s1 ++ "Files Changed (0 files):" ++ s2) ∧
      Event.updatePR (jsonField v "description") ∈ (main env remote).events := by
  intro env remote url rest pd pr blocks v ha h1 h2 htok hkey hparse hpr hgen hreply
  have hu : url ≠ "" := by
    intro he
    rw [he, parseGitHubUrl, if_pos rfl] at hparse
    exact absurd hparse (by simp)
  have hc1 : (env.args.isEmpty || env.args.contains "--help" || env.args.contains "-h")
      = false := by
    rw [ha]
    rw [ha] at h1 h2
    simp [List.contains, h1, h2]
  have hevents : (main env remote).events =
      .fetchPR :: .generate (buildPrompt [] (some ⟨some pr.title, pr.body, none, none⟩))
        :: .updatePR (jsonField v "description")
        :: (match remote.updateResult with
            | .error m => [Event.printErr m]
            | .ok _ => []) := by
    have hcn : ¬ ((env.args.isEmpty || env.args.contains "--help"
        || env.args.contains "-h") = true) := by
      rw [hc1]
      simp
    rw [main, if_neg hcn, if_neg htok, if_neg hkey, ha]
    dsimp only
    rw [if_neg hu, hparse]
    dsimp only
    rw [hpr]
    dsimp only
    rw [hgen]
    dsimp only
    rw [hreply]
    dsimp only
    cases remote.updateResult with
    | error m => rfl
    | ok x => rfl
  refine ⟨?_, ?_, ?_⟩
  · rw [hevents]
    simp
  · refine ⟨"Analyze these GitHub changes and generate a clear, concise PR title and description.\n"
      ++ contextInfo (some ⟨some pr.title, pr.body, none, none⟩) ++ "\n",
      "\n" ++ "[]" ++ promptTail, ?_⟩
    apply String.ext
    simp [buildPrompt, stringifyFiles, strData_append, List.append_assoc,
      show toString (0 : Nat) = "0" from rfl]
  · rw [hevents]
    simp

theorem pr_path_empty_files_still_generates_witness :
    Event.generate (buildPrompt [] (some ⟨some "T", none, none, none⟩))
        ∈ (main ⟨["https://github.com/o/r/pull/1"], some "t", some "k"⟩
            ⟨.ok (⟨"T", none, "u"⟩, []), .error "", .ok [ContentBlock.text "\x7b\x7d"], .ok ()⟩).events ∧
    (∃ s1 s2 : String,
      buildPrompt [] (some ⟨some "T", none, none, none⟩)
        = s1 ++ "Files Changed (0 files):" ++ s2) ∧
    Event.updatePR (jsonField (Json.obj []) "description")
        ∈ (main ⟨["https://github.com/o/r/pull/1"], some "t", some "k"⟩
            ⟨.ok (⟨"T", none, "u"⟩, []), .error "", .ok [ContentBlock.text "\x7b\x7d"], .ok ()⟩).events :=
  pr_path_empty_files_still_generates
    ⟨["https://github.com/o/r/pull/1"], some "t", some "k"⟩
    ⟨.ok (⟨"T", none, "u"⟩, []), .error "", .ok [ContentBlock.text "\x7b\x7d"], .ok ()⟩
    "https://github.com/o/r/pull/1" [] ⟨"o", "r", 1⟩ ⟨"T", none, "u"⟩
    [ContentBlock.text "\x7b\x7d"] (Json.obj [])
    rfl (by simp) (by simp) (by simp) (by simp) rfl rfl rfl rfl

/-! ## Claim C1: reply validation -/

/-- C1, counterexample: a reply whose extracted JSON object has neither a
`title` nor a `description` field is returned successfully by the reply
handler instead of raising a `GenerationParseError` — the source merely
casts the parsed value with `as GeneratedContent` and never checks the
fields. -/
theorem generator_missing_fields_counterexample :
    parseReply [ContentBlock.text "\x7b\x7d"] = .ok (Json.obj []) ∧
    jsonField (Json.obj []) "title" = none ∧
    jsonField (Json.obj []) "description" = none :=
  ⟨rfl, rfl, rfl⟩

/-- C1, amended: after extracting and JSON-parsing the first-to-last brace
substring the generator returns the parsed value without any field
validation; only the absence of a text-typed first block, the absence of a
brace-delimited substring, or a JSON syntax failure produce errors. -/
theorem generator_returns_unvalidated_json :
    (∀ (t : String) (bs : List ContentBlock) (e : List Char) (v : Json),
      extractBraced t.data = some e → jsonParse e = some v →
      parseReply (ContentBlock.text t :: bs) = .ok v) ∧
    (∀ (t : String) (bs : List ContentBlock),
      extractBraced t.data = none →
      parseReply (ContentBlock.text t :: bs) = .error .couldNotParse) ∧
    (∀ (t : String) (bs : List ContentBlock) (e : List Char),
      extractBraced t.data = some e → jsonParse e = none →
      parseReply (ContentBlock.text t :: bs) = .error .jsonSyntax) ∧
    (∀ bs : List ContentBlock,
      parseReply (ContentBlock.other :: bs) = .error .unexpectedFormat) ∧
    parseReply [] = .error .unexpectedFormat := by
  refine ⟨?_, ?_, ?_, fun bs => rfl, rfl⟩
  · intro t bs e v he hv
    exact parseReply_ok he hv
  · intro t bs he
    exact parseReply_noExtract he
  · intro t bs e he hv
    exact parseReply_syntax he hv

theorem generator_returns_unvalidated_json_witness :
    parseReply [ContentBlock.text "reply: \x7b\"title\":\"t\"\x7d"]
      = .ok (Json.obj [("title".data, Json.str "t".data)]) ∧
    parseReply [ContentBlock.text "no json at all"] = .error .couldNotParse ∧
    parseReply [ContentBlock.text "\x7bnot json\x7d"] = .error .jsonSyntax ∧
    parseReply [ContentBlock.other] = .error .unexpectedFormat :=
  ⟨generator_returns_unvalidated_json.1 _ [] _ _ rfl rfl,
   generator_returns_unvalidated_json.2.1 _ [] rfl,
   generator_returns_unvalidated_json.2.2.1 _ [] _ rfl rfl,
   generator_returns_unvalidated_json.2.2.2.1 []⟩

/-! ## Claim C3: extraction examples -/

/-- C3: a reply text embedding the example JSON object inside brace-free
prose is extracted and parsed into the expected fields, and a reply text
with no brace characters at all yields the `GenerationParseError`
(`"Could not parse JSON response from Claude"`). -/
theorem reply_extraction_examples :
    (∀ p q : String,
      (∀ c ∈ p.data, c ≠ '\x7b' ∧ c ≠ '\x7d') →
      (∀ c ∈ q.data, c ≠ '\x7b' ∧ c ≠ '\x7d') →
      parseReply [ContentBlock.text
          (p ++ "\x7b\"title\":\"feat(x): y\",\"description\":\"z\"\x7d" ++ q)]
        = .ok (Json.obj [("title".data, Json.str "feat(x): y".data),
                         ("description".data, Json.str "z".data)])) ∧
    (∀ (t : String) (bs : List ContentBlock),
      (∀ c ∈ t.data, c ≠ '\x7b' ∧ c ≠ '\x7d') →
      parseReply (ContentBlock.text t :: bs) = .error .couldNotParse) := by
  constructor
  · intro p q hp hq
    have hshape : (p ++ "\x7b\"title\":\"feat(x): y\",\"description\":\"z\"\x7d" ++ q).data
        = p.data ++ '\x7b' ::
            ("\"title\":\"feat(x): y\",\"description\":\"z\"".data ++ '\x7d' :: q.data) := by
      rw [strData_append, strData_append, List.append_assoc]
      rw [show ("\x7b\"title\":\"feat(x): y\",\"description\":\"z\"\x7d".data : List Char)
          = '\x7b' :: ("\"title\":\"feat(x): y\",\"description\":\"z\"".data ++ ['\x7d'])
          from rfl]
      simp
    have hx : extractBraced
        (p ++ "\x7b\"title\":\"feat(x): y\",\"description\":\"z\"\x7d" ++ q).data
        = some ('\x7b' :: ("\"title\":\"feat(x): y\",\"description\":\"z\"".data ++ ['\x7d'])) := by
      rw [hshape]
      exact extractBraced_embed _ (fun d hd => (hp d hd).1) (fun d hd => (hq d hd).2)
    have hj : jsonParse
        ('\x7b' :: ("\"title\":\"feat(x): y\",\"description\":\"z\"".data ++ ['\x7d']))
        = some (Json.obj [("title".data, Json.str "feat(x): y".data),
                          ("description".data, Json.str "z".data)]) := rfl
    exact parseReply_ok hx hj
  · intro t bs ht
    exact parseReply_noExtract (extractBraced_none fun d hd => (ht d hd).1)

/-! ## Claim C2: the parse-success invariant -/

/-- C2, counterexample: the parser succeeds on
`https://github.com/o/r/compare/a...` with an empty `head` (because
`"a...".split("...")` is `["a", ""]`), refuting the claimed invariant that
base and head are always non-empty on success. -/
theorem parse_invariant_counterexample :
    parseGitHubUrl "https://github.com/o/r/compare/a..." =
      .ok (.compare ⟨"o", "r", "a", ""⟩) ∧
    ¬ (∀ d, parseGitHubUrl "https://github.com/o/r/compare/a..." = .ok d →
        match d with
        | .pr p => p.owner ≠ "" ∧ p.repo ≠ "" ∧ 0 < p.pull_number
        | .compare c => c.owner ≠ "" ∧ c.repo ≠ "" ∧ c.base ≠ "" ∧ c.head ≠ "") := by
  refine ⟨rfl, fun hall => ?_⟩
  have h := hall (.compare ⟨"o", "r", "a", ""⟩) rfl
  exact h.2.2.2 rfl

/-- C2, amended: whenever the parser succeeds, owner and repo are
non-empty and, in the pull-request case, the number is positive.  In the
compare case base or head can be the empty string (when the branch spec
begins or ends with the literal `...`), so their non-emptiness is not an
invariant of the code. -/
theorem parse_success_invariant_amended :
    ∀ (url : String) (d : URLDetails), parseGitHubUrl url = .ok d →
      match d with
      | .pr p => p.owner ≠ "" ∧ p.repo ≠ "" ∧ 0 < p.pull_number
      | .compare c => c.owner ≠ "" ∧ c.repo ≠ "" := by
  intro url d h
  by_cases hu : url = ""
  · rw [parseGitHubUrl, if_pos hu] at h
    exact absurd h (by simp)
  · rw [parseGitHubUrl, if_neg hu] at h
    cases hpr : scanMatch matchPRAt url.data with
    | some trip =>
      obtain ⟨o, r, n⟩ := trip
      rw [hpr] at h
      dsimp only at h
      by_cases hg : o = [] ∨ r = [] ∨ n = []
      · rw [if_pos hg] at h
        exact absurd h (by simp)
      · rw [if_neg hg] at h
        push_neg at hg
        by_cases hn : parseIntDigits n ≤ 0
        · rw [if_pos hn] at h
          exact absurd h (by simp)
        · rw [if_neg hn] at h
          have hd := (Except.ok.injEq _ _).mp h
          subst hd
          exact ⟨mk_ne_empty hg.1, mk_ne_empty hg.2.1, Nat.not_le.mp hn⟩
    | none =>
      rw [hpr] at h
      dsimp only at h
      cases hcm : scanMatch matchCompareAt url.data with
      | some trip =>
        obtain ⟨o, r, comp⟩ := trip
        rw [hcm] at h
        dsimp only at h
        by_cases hg : o = [] ∨ r = [] ∨ comp = []
        · rw [if_pos hg] at h
          exact absurd h (by simp)
        · rw [if_neg hg] at h
          push_neg at hg
          cases hsp : splitDots comp with
          | nil => rw [hsp] at h; exact absurd h (by simp)
          | cons b parts =>
            cases parts with
            | nil =>
              rw [hsp] at h
              have hd := (Except.ok.injEq _ _).mp h
              subst hd
              exact ⟨mk_ne_empty hg.1, mk_ne_empty hg.2.1⟩
            | cons hh parts2 =>
              cases parts2 with
              | nil =>
                rw [hsp] at h
                have hd := (Except.ok.injEq _ _).mp h
                subst hd
                exact ⟨mk_ne_empty hg.1, mk_ne_empty hg.2.1⟩
              | cons x xs =>
                rw [hsp] at h
                exact absurd h (by simp)
      | none =>
        rw [hcm] at h
        dsimp only at h
        exact absurd h (by simp)

theorem parse_success_invariant_amended_witness :
    ("o" : String) ≠ "" ∧ ("r" : String) ≠ "" ∧ 0 < (5 : Nat) :=
  parse_success_invariant_amended "https://github.com/o/r/pull/5"
    (.pr ⟨"o", "r", 5⟩) rfl

/-! ## Claim C4: pull-request URLs -/

/-- C4, counterexample: `.../pull/12x` has a non-numeric pull segment, yet
the parser succeeds with number 12 (the regex `\d+` happily matches the
leading digit run), refuting the claim that a non-numeric N always fails. -/
theorem pull_url_trailing_junk_counterexample :
    parseGitHubUrl "https://github.com/o/r/pull/12x" = .ok (.pr ⟨"o", "r", 12⟩) := rfl

/-- C4, amended: for slash-free non-empty `O`, `R` and an all-digit `N`
whose `parseInt` value stays below the double overflow threshold,
`https://github.com/O/R/pull/N` parses to the pull-request reference
carrying the `parseInt` value of `N` — the exact value of `N` whenever it
is below `2 ^ 53`, the rounded double above; when the value is 0 parsing
fails with the invalid-pull-number error; a pull segment with no leading
digit makes both regexes fail everywhere, giving the invalid-URL error.
(A non-numeric segment with a non-empty leading digit run parses
successfully using just that run — see the counterexample.) -/
theorem pull_url_parse_amended :
    (∀ O R N : String,
      O.data ≠ [] → (∀ c ∈ O.data, c ≠ '/') →
      R.data ≠ [] → (∀ c ∈ R.data, c ≠ '/') →
      N.data ≠ [] → (∀ c ∈ N.data, c.isDigit = true) →
      0 < digitsToNat N.data → parseIntDigits N.data < 2 ^ 1024 →
      parseGitHubUrl ("https://github.com/" ++ O ++ "/" ++ R ++ "/pull/" ++ N)
        = .ok (.pr ⟨O, R, parseIntDigits N.data⟩) ∧
      (digitsToNat N.data < 2 ^ 53 → parseIntDigits N.data = digitsToNat N.data)) ∧
    (∀ O R N : String,
      O.data ≠ [] → (∀ c ∈ O.data, c ≠ '/') →
      R.data ≠ [] → (∀ c ∈ R.data, c ≠ '/') →
      N.data ≠ [] → (∀ c ∈ N.data, c.isDigit = true) →
      digitsToNat N.data = 0 →
      parseGitHubUrl ("https://github.com/" ++ O ++ "/" ++ R ++ "/pull/" ++ N)
        = .error .invalidPullNumber) ∧
    (∀ O R N : String, cleanSeg O → cleanSeg R →
      (∀ c ∈ N.data, c ≠ '/') →
      (∀ c t, N.data = c :: t → c.isDigit = false) →
      parseGitHubUrl ("https://github.com/" ++ O ++ "/" ++ R ++ "/pull/" ++ N)
        = .error .invalidUrl) := by
  have hmain : ∀ O R N : String,
      O.data ≠ [] → (∀ c ∈ O.data, c ≠ '/') →
      R.data ≠ [] → (∀ c ∈ R.data, c ≠ '/') →
      N.data ≠ [] → (∀ c ∈ N.data, c.isDigit = true) →
      ∃ u : String, u = "https://github.com/" ++ O ++ "/" ++ R ++ "/pull/" ++ N ∧
        u ≠ "" ∧ scanMatch matchPRAt u.data = some (O.data, R.data, N.data) := by
    intro O R N hO1 hO2 hR1 hR2 hN1 hN2
    refine ⟨_, rfl, ?_, ?_⟩
    · intro he
      have := congrArg String.data he
      simp [strData_append] at this
    · have hdata : ("https://github.com/" ++ O ++ "/" ++ R ++ "/pull/" ++ N).data
          = "https://".data ++ ("github.com/".data ++
            (O.data ++ '/' :: (R.data ++ '/' :: 'p' :: 'u' :: 'l' :: 'l' :: '/' :: N.data))) := by
        simp [strData_append]
      rw [hdata, scan_https_pr]
      refine scanMatch_eq_some (matchPRAt_hit N.data hO1 ?_ hR1 ?_ hN1 (takeRun_all hN2))
      · intro c hc
        simp [notSlash, hO2 c hc]
      · intro c hc
        simp [notSlash, hR2 c hc]
  refine ⟨?_, ?_, ?_⟩
  · intro O R N hO1 hO2 hR1 hR2 hN1 hN2 hpos _
    obtain ⟨u, hu, hne, hscan⟩ := hmain O R N hO1 hO2 hR1 hR2 hN1 hN2
    refine ⟨?_, fun hb => parseIntDigits_exact hb⟩
    rw [← hu, parseGitHubUrl, if_neg hne, hscan]
    have hg : ¬ (O.data = [] ∨ R.data = [] ∨ N.data = []) := by
      simp [hO1, hR1, hN1]
    have hpos2 := parseIntDigits_pos hpos
    dsimp only
    rw [if_neg hg, if_neg (by omega : ¬ parseIntDigits N.data ≤ 0)]
  · intro O R N hO1 hO2 hR1 hR2 hN1 hN2 hzero
    obtain ⟨u, hu, hne, hscan⟩ := hmain O R N hO1 hO2 hR1 hR2 hN1 hN2
    rw [← hu, parseGitHubUrl, if_neg hne, hscan]
    have hg : ¬ (O.data = [] ∨ R.data = [] ∨ N.data = []) := by
      simp [hO1, hR1, hN1]
    have hz2 := parseIntDigits_zero hzero
    dsimp only
    rw [if_neg hg, if_pos (by omega : parseIntDigits N.data ≤ 0)]
  · intro O R N hO hR hNs hNd
    obtain ⟨hO1, hO2, hO3⟩ := hO
    obtain ⟨hR1, hR2, hR3⟩ := hR
    have ho2' : ∀ c ∈ O.data, notSlash c = true := fun c hc => by
      simp [notSlash, hO2 c hc]
    have hr2' : ∀ c ∈ R.data, notSlash c = true := fun c hc => by
      simp [notSlash, hR2 c hc]
    have hns' : ∀ c ∈ N.data, notSlash c = true := fun c hc => by
      simp [notSlash, hNs c hc]
    have hgd : group1 Char.isDigit N.data = none := by
      cases hN : N.data with
      | nil => rfl
      | cons c t => exact group1_none_of_head (hNd c t hN)
    have hdata : ("https://github.com/" ++ O ++ "/" ++ R ++ "/pull/" ++ N).data
        = "https://github.com/".data ++
          (O.data ++ '/' :: (R.data ++ '/' :: 'p' :: 'u' :: 'l' :: 'l' :: '/' :: N.data)) := by
      simp [strData_append, List.append_assoc]
    have hne : ("https://github.com/" ++ O ++ "/" ++ R ++ "/pull/" ++ N) ≠ "" := by
      intro he
      rw [he] at hdata
      simp at hdata
    have hPR : scanMatch matchPRAt
        ("https://github.com/" ++ O ++ "/" ++ R ++ "/pull/" ++ N).data = none := by
      rw [hdata]
      exact scanPR_none_pull N.data hO1 ho2' hO3 hR1 hr2' hR3 hns' hgd
    have hCMP : scanMatch matchCompareAt
        ("https://github.com/" ++ O ++ "/" ++ R ++ "/pull/" ++ N).data = none := by
      rw [hdata]
      exact scanCMP_none_pull N.data hO1 ho2' hO3 hR1 hr2' hR3 hns'
    rw [parseGitHubUrl, if_neg hne, hPR]
    dsimp only
    rw [hCMP]

theorem pull_url_parse_amended_witness :
    parseGitHubUrl "https://github.com/acme/widgets/pull/42"
      = .ok (.pr ⟨"acme", "widgets", 42⟩) ∧
    parseGitHubUrl "https://github.com/acme/widgets/pull/0"
      = .error .invalidPullNumber ∧
    parseGitHubUrl "https://github.com/acme/widgets/pull/x"
      = .error .invalidUrl := by
  refine ⟨?_, ?_, ?_⟩
  · exact (pull_url_parse_amended.1 "acme" "widgets" "42"
      (by decide) (by decide) (by decide) (by decide) (by decide) (by decide)
      (by decide)
      (by
        rw [parseIntDigits_exact (by decide)]
        exact lt_of_lt_of_le (by decide : digitsToNat "42".data < 2 ^ 53)
          (Nat.pow_le_pow_right (by norm_num) (by norm_num)))).1
  · exact pull_url_parse_amended.2.1 "acme" "widgets" "0"
      (by decide) (by decide) (by decide) (by decide) (by decide) (by decide) (by decide)
  · exact pull_url_parse_amended.2.2 "acme" "widgets" "x"
      (by decide) (by decide) (by decide)
      (by intro c t h; injection h with h1 h2; rw [← h1]; decide)

theorem reply_extraction_examples_witness :
    parseReply [ContentBlock.text
        ("Here you go: " ++ "\x7b\"title\":\"feat(x): y\",\"description\":\"z\"\x7d" ++ " Enjoy!")]
      = .ok (Json.obj [("title".data, Json.str "feat(x): y".data),
                       ("description".data, Json.str "z".data)]) ∧
    parseReply [ContentBlock.text "I could not produce JSON."]
      = .error .couldNotParse :=
  ⟨reply_extraction_examples.1 "Here you go: " " Enjoy!" (by decide) (by decide),
   reply_extraction_examples.2 "I could not produce JSON." [] (by decide)⟩

end Prd
